import Mathlib

/-!
# Verification of the calendar_maker rendering core

A shallow embedding of the parts of the `calendar_maker` repository that the
frozen claims talk about, together with theorems settling those claims.

Conventions used throughout:

* Python `float` arithmetic is modelled with `ℚ`; every numeric literal that
  appears in the sources (`25.4`, `4.25`, `0.03`, …) is exactly representable
  in binary floating point or is only used at inputs where the float and the
  rational computation agree, so `ℚ` is faithful at the evaluated points.
* Python `int(x)` (truncation towards zero) is `pyInt`; Python's `round`
  (round half to even) is `roundHalfEven`.
* Fallible Python code (raised exceptions) is modelled with `Except PyErr`.
* PIL-backed operations whose output depends on font rasterisation or on
  resampling (text measurement, `Image.resize`) are taken as explicit function
  parameters of the embedding; theorems either hold for all such functions or
  assume only what PIL guarantees (for example that `resize` returns an image
  of exactly the requested size).
-/

namespace CalendarMaker

/-- Python `int(q)` for a rational `q`: truncation towards zero. -/
def pyInt (q : ℚ) : ℤ := if 0 ≤ q then ⌊q⌋ else ⌈q⌉

/-- Python `round(q)` (to the nearest integer, ties to even). -/
def roundHalfEven (q : ℚ) : ℤ :=
  let f := ⌊q⌋
  if q - f < 1/2 then f
  else if q - f > 1/2 then f + 1
  else if f % 2 = 0 then f else f + 1

/-! ## `calendar.monthcalendar` (Python standard library, Sunday-first)

`lib/pycal.py` builds its month grid from
`calendar.setfirstweekday(calendar.SUNDAY); calendar.monthcalendar(year, month)`.
The standard library computes, in the proleptic Gregorian calendar, the weeks
of the month as rows of 7 day numbers with 0 for cells outside the month.
-/

/-- Gregorian leap year test (`calendar.isleap`). -/
def isLeapYear (y : ℕ) : Bool := y % 4 == 0 && (y % 100 != 0 || y % 400 == 0)

/-- Number of days in a month (`calendar.monthrange`). -/
def daysInMonth (y m : ℕ) : ℕ :=
  if m = 2 then (if isLeapYear y then 29 else 28)
  else if m = 4 ∨ m = 6 ∨ m = 9 ∨ m = 11 then 30
  else 31

/-- Days in the months of year `y` before month `m`. -/
def daysBeforeMonth (y m : ℕ) : ℕ :=
  (List.range (m - 1)).foldl (fun acc i => acc + daysInMonth y (i + 1)) 0

/-- Days before January 1st of year `y` in the proleptic Gregorian calendar. -/
def daysBeforeYear (y : ℕ) : ℕ :=
  365 * (y - 1) + (y - 1) / 4 + (y - 1) / 400 - (y - 1) / 100

/-- `datetime.date(y, m, d).toordinal()`: day count with 0001-01-01 = 1. -/
def toOrdinal (y m d : ℕ) : ℕ := daysBeforeYear y + daysBeforeMonth y m + d

/-- `datetime.date(y, m, d).weekday()`: Monday = 0 … Sunday = 6
(0001-01-01 is a Monday). -/
def weekdayMon0 (y m d : ℕ) : ℕ := (toOrdinal y m d + 6) % 7

/-- Week-column index of a date when weeks start on Sunday (Sunday = 0). -/
def weekdaySun0 (y m d : ℕ) : ℕ := (weekdayMon0 y m d + 1) % 7

/-- Split a list into consecutive rows of 7 (structural recursion on a fuel
bound: every step consumes at least one element, so `l.length` steps
suffice). -/
def chunksOf7Go : ℕ → List ℕ → List (List ℕ)
  | 0, _ => []
  | fuel + 1, l => if l = [] then [] else (l.take 7) :: chunksOf7Go fuel (l.drop 7)

/-- Split a list into consecutive rows of 7. -/
def chunksOf7 (l : List ℕ) : List (List ℕ) := chunksOf7Go l.length l

/-- `calendar.monthcalendar(y, m)` with `firstweekday = SUNDAY`: the weeks of
the month as rows of 7, out-of-month cells being 0. -/
def monthcalendar (y m : ℕ) : List (List ℕ) :=
  let n := daysInMonth y m
  let lead := weekdaySun0 y m 1
  let pad := (7 - (lead + n) % 7) % 7
  chunksOf7 (List.replicate lead 0 ++ (List.range n).map (· + 1) ++ List.replicate pad 0)

/-! ## The `lib.pycal` data model -/

/-- `pycal.MoonPhase`: a wrapper storing a moon-phase name (possibly `None`). -/
structure MoonPhase where
  phase : Option String
deriving DecidableEq, Repr

/-- `pycal.Day`: one cell of a month table.  The constructor always stores
`MoonPhase(moon_phase)`, even when `moon_phase` is `None`. -/
structure Day where
  day : Option ℕ
  photo : Option String
  text : Option String
  moonPhase : MoonPhase
deriving DecidableEq, Repr

/-- `Day.__init__`. -/
def Day.new (day : Option ℕ := none) (photo : Option String := none)
    (text : Option String := none) (moonPhase : Option String := none) : Day :=
  ⟨day, photo, text, ⟨moonPhase⟩⟩

/-- The three event kinds produced by `EventsManager.get`: a plain `Event`,
a `MoonPhase` event, or a `Birthday` (image plus name). -/
inductive PyEvent where
  | plain (name : String)
  | moon (name : String)
  | birthday (image : Option String) (name : String)
deriving DecidableEq, Repr

/-- An events provider, `events.get(date)` as a function of (year, month, day). -/
abbrev EventsFn := ℕ → ℕ → ℕ → List PyEvent

/-- The per-day event fold inside `Month.__init__`: moon phases overwrite the
moon name (last one wins), birthdays overwrite the photo and append their name
to the text lines, plain events append their name. -/
def buildDay (events : Option EventsFn) (y m d : ℕ) : Day :=
  if d = 0 then Day.new none none none none
  else
    match events with
    | none => Day.new (some d) none none none
    | some f =>
        let st := (f y m d).foldl
          (fun (st : Option String × List String × Option String) e =>
            match e with
            | .moon n => (st.1, st.2.1, some n)
            | .birthday img n => (img, st.2.1 ++ [n], st.2.2)
            | .plain n => (st.1, st.2.1 ++ [n], st.2.2))
          (none, [], none)
        let text := if st.2.1 = [] then none else some (String.intercalate ";\n" st.2.1)
        Day.new (some d) st.1 text st.2.2

/-- The weekday header names stored by `Month.__init__`. -/
def weekdayNames : List String :=
  ["Sunday", "Monday", "Tuesday", "Wednesday", "Thursday", "Friday", "Saturday"]

/-- `pycal.Month` (the fields that feed rendering). -/
structure PyMonth where
  year : ℕ
  month : ℕ
  cells : List (List Day)
  dayNames : List String
deriving Repr

/-- `Month.__init__`: build the week rows from `monthcalendar`, then append a
single padding week when fewer than 6 rows were produced (`if`, not `while`). -/
def Month.new (year month : ℕ) (events : Option EventsFn := none) : PyMonth :=
  let cal := monthcalendar year month
  let cells := cal.map (fun row => row.map (buildDay events year month))
  let cells := if cells.length < 6
    then cells ++ [(List.range 7).map (fun _ => Day.new)]
    else cells
  { year := year, month := month, cells := cells, dayNames := weekdayNames }

/-- `Month.table`: the pair (weekday names, cell rows). -/
def PyMonth.table (m : PyMonth) : List String × List (List Day) :=
  (m.dayNames, m.cells)

/-- `pycal.Calendar.MonthInfo`: a month together with its art page (the art
carries no data the page-count claims need, so it is a unit tag here). -/
structure MonthInfo where
  month : PyMonth
deriving Repr

/-- `pycal.Calendar`: a front page plus the 12 `MonthInfo` entries built by
`Calendar.__init__` for months 1..12. -/
structure PyCalendar where
  year : ℕ
  pages : List MonthInfo
deriving Repr

/-- `Calendar.__init__`. -/
def Calendar.new (year : ℕ) (events : Option EventsFn := none) : PyCalendar :=
  { year := year
    pages := ((List.range 12).map (fun i => ⟨Month.new year (i + 1) events⟩)) }

/-! ## `lib.print.draw._Resolution` (unit conversion)

`_Resolution` resolves conversion methods by name with `getattr`:
the unit setter looks up `f"{unit}_to_pt"` and `f"pt_to_{unit}"`, and the
string path of `to_pt` looks up `f"{suffix}_to_pt"`.  We therefore model the
attribute table of the class explicitly.
-/

/-- A Python exception. -/
inductive PyErr where
  | attributeError (name : String)
  | typeError (msg : String)
  | valueError (msg : String)
deriving DecidableEq, Repr

/-- The method names defined on `_Resolution` (used by `getattr` lookups). -/
def resolutionAttrs : List String :=
  ["none_to_pt", "mm_to_in", "font_to_pt", "font_in_to_font", "in_to_pt",
   "pt_to_in", "mm_to_pt", "cm_to_pt", "px_to_pt", "pt_to_pt",
   "_to_pt", "_pt_to", "to_pt", "pt_to", "unit", "dpi"]

/-- `hasattr`-style lookup on `_Resolution`. -/
def resolutionHasAttr (name : String) : Bool := resolutionAttrs.contains name

/-- The forward (`*_to_pt`) conversion methods of `_Resolution`. -/
inductive ConvKind where
  | noneK | inK | mmK | cmK | pxK | fontK | ptK
deriving DecidableEq, Repr

/-- Map a method name `"<u>_to_pt"` to its conversion (the names in
`resolutionAttrs` of that shape, minus the private `_to_pt`). -/
def toPtKindOfName (name : String) : Option ConvKind :=
  if name = "none_to_pt" then some .noneK
  else if name = "in_to_pt" then some .inK
  else if name = "mm_to_pt" then some .mmK
  else if name = "cm_to_pt" then some .cmK
  else if name = "px_to_pt" then some .pxK
  else if name = "font_to_pt" then some .fontK
  else if name = "pt_to_pt" then some .ptK
  else none

/-- The inverse (`pt_to_*`) methods that actually exist on `_Resolution`:
only `pt_to_in` and `pt_to_pt` are defined (there is no `pt_to_mm`,
`pt_to_cm`, `pt_to_px` or `pt_to_none`).  `noneR` is the initial value
installed by `__init__` (which stores `none_to_pt` for both directions). -/
inductive RevKind where
  | noneR | inR | ptR
deriving DecidableEq, Repr

/-- Map a method name `"pt_to_<u>"` to the inverse conversion it denotes. -/
def ptToKindOfName (name : String) : Option RevKind :=
  if name = "pt_to_in" then some .inR
  else if name = "pt_to_pt" then some .ptR
  else none

/-- The mutable state of the process-wide `Resolution` singleton. -/
structure ResState where
  dpi : ℤ
  unit : String
  default : ConvKind
  revert : RevKind
deriving DecidableEq, Repr

/-- `_Resolution.__init__`: dpi 300, unit `"none"`, both directions
`none_to_pt`. -/
def ResState.init : ResState := ⟨300, "none", .noneK, .noneR⟩

/-- `in_to_pt(inches) = int(inches * dpi)`. -/
def in_to_pt (dpi : ℤ) (inches : ℚ) : ℤ := pyInt (inches * dpi)

/-- `mm_to_in(mm) = mm / 25.4`. -/
def mm_to_in (mm : ℚ) : ℚ := mm / (127/5)

/-- Run a forward conversion: the bodies of the `*_to_pt` methods. -/
def runToPt (dpi : ℤ) : ConvKind → ℚ → ℤ
  | .noneK, v => pyInt v
  | .inK, v => in_to_pt dpi v
  | .mmK, v => in_to_pt dpi (mm_to_in v)
  | .cmK, v => in_to_pt dpi (mm_to_in (v * 10))
  | .pxK, v => in_to_pt dpi (v * 96)
  | .fontK, v => pyInt ((v / 72) * dpi)
  | .ptK, v => pyInt v

/-- Run an inverse conversion: the bodies of `none_to_pt` (initial value),
`pt_to_in` and `pt_to_pt`.  `pt_to_in` returns a float, the others an int;
both are numbers, modelled in `ℚ`. -/
def runPtTo (dpi : ℤ) : RevKind → ℚ → ℚ
  | .noneR, v => (pyInt v : ℚ)
  | .inR, v => v / dpi
  | .ptR, v => (pyInt v : ℚ)

/-- The `unit` setter: skip falsy units, else `getattr` the two conversion
methods (raising `AttributeError` when one does not exist) and install them. -/
def ResState.setUnit (st : ResState) (u : String) : Except PyErr ResState :=
  if u = "" then .ok st
  else
    let fnName := u ++ "_to_pt"
    let fn2Name := "pt_to_" ++ u
    if resolutionHasAttr fnName = false then .error (.attributeError fnName)
    else if resolutionHasAttr fn2Name = false then .error (.attributeError fn2Name)
    else
      match toPtKindOfName fnName, ptToKindOfName fn2Name with
      | some k, some r => .ok { st with unit := u, default := k, revert := r }
      | _, _ => .error (.attributeError fn2Name)

/-- The `dpi` setter (`self._dpi = int(value)`). -/
def ResState.setDpi (st : ResState) (v : ℤ) : ResState := { st with dpi := v }

/-- `to_pt` on a plain number: `self._to_pt(value) = self._default(value)`. -/
def ResState.toPtNum (st : ResState) (v : ℚ) : ℤ := runToPt st.dpi st.default v

/-- `pt_to` on a plain number: `self._pt_to(value) = self._revert(value)`. -/
def ResState.ptToNum (st : ResState) (v : ℚ) : ℚ := runPtTo st.dpi st.revert v

/-! ### The `FMT_EXP` regex

`to_pt` parses strings with `re.match(r"([-+]?[0-9]*\.?[0-9]+)([a-z]*)", s)`:
an optional sign, an optional integer part, an optional dot followed by at
least one digit (or a plain integer), then a possibly-empty lowercase suffix.
-/

/-- Digits to a natural number. -/
def digitsToNat (ds : List Char) : ℕ :=
  ds.foldl (fun acc c => acc * 10 + (c.toNat - '0'.toNat)) 0

/-- Parse the leading `<number><letters>` of a string per `FMT_EXP` into
(negative sign?, decimal mantissa, number of fractional digits, suffix);
`none` when the regex does not match at the start. -/
def parseNumSuffixRaw (s : String) : Option (Bool × ℕ × ℕ × String) :=
  let cs := s.data
  let (neg, cs) := match cs with
    | '-' :: rest => (true, rest)
    | '+' :: rest => (false, rest)
    | _ => (false, cs)
  let ds1 := cs.takeWhile (·.isDigit)
  let rest1 := cs.dropWhile (·.isDigit)
  match rest1 with
  | '.' :: afterDot =>
      let ds2 := afterDot.takeWhile (·.isDigit)
      let rest2 := afterDot.dropWhile (·.isDigit)
      if ds2 ≠ [] then
        some (neg, digitsToNat ds1 * 10 ^ ds2.length + digitsToNat ds2, ds2.length,
          String.mk (rest2.takeWhile (fun c => 'a' ≤ c ∧ c ≤ 'z')))
      else if ds1 ≠ [] then
        -- `\.?` backtracks to the empty match; the suffix `[a-z]*` then
        -- stops at the dot, so it is empty.
        some (neg, digitsToNat ds1, 0, "")
      else none
  | _ =>
      if ds1 ≠ [] then
        some (neg, digitsToNat ds1, 0, String.mk (rest1.takeWhile (fun c => 'a' ≤ c ∧ c ≤ 'z')))
      else none

/-- The rational value of a parsed `<number>` (`float(m.group(1))`: exact for
the short decimal literals these claims evaluate). -/
def parsedValue (neg : Bool) (mantissa fracDigits : ℕ) : ℚ :=
  (if neg then -1 else 1) * (mantissa : ℚ) / ((10 : ℚ) ^ fracDigits)

/-- Parse the leading `<number><letters>` of a string per `FMT_EXP`. -/
def parseNumSuffix (s : String) : Option (ℚ × String) :=
  (parseNumSuffixRaw s).map (fun r => (parsedValue r.1 r.2.1 r.2.2.1, r.2.2.2))

/-- `to_pt` on a string: no regex match converts to 0; an empty suffix
dispatches to the private `_to_pt` (the configured default); a known suffix
dispatches to its `*_to_pt` method; an unknown suffix raises
`AttributeError` from `getattr`. -/
def ResState.toPtStr (st : ResState) (s : String) : Except PyErr ℤ :=
  match parseNumSuffix s with
  | none => .ok 0
  | some (q, sfx) =>
      if sfx = "" then .ok (st.toPtNum q)
      else
        match toPtKindOfName (sfx ++ "_to_pt") with
        | some k => .ok (runToPt st.dpi k q)
        | none => .error (.attributeError (sfx ++ "_to_pt"))

/-! ## `lib.print.draw.BBox` (rational coordinates) -/

/-- `BBox`: a (left, top, right, bottom) rectangle. -/
structure BBoxQ where
  left : ℚ
  top : ℚ
  right : ℚ
  bottom : ℚ
deriving DecidableEq, Repr

/-- `BBox.new(x, y, w, h) = BBox(x, y, x + w, y + h)`. -/
def BBoxQ.new (x y w h : ℚ) : BBoxQ := ⟨x, y, x + w, y + h⟩

/-- `BBox.width`. -/
def BBoxQ.width (b : BBoxQ) : ℚ := b.right - b.left

/-- `BBox.height`. -/
def BBoxQ.height (b : BBoxQ) : ℚ := b.bottom - b.top

/-- `BBox.center`: the midpoint. -/
def BBoxQ.center (b : BBoxQ) : ℚ × ℚ :=
  (b.left + (b.right - b.left) / 2, b.top + (b.bottom - b.top) / 2)

/-- `BBox.move(x, y)`. -/
def BBoxQ.move (b : BBoxQ) (x y : ℚ) : BBoxQ :=
  ⟨b.left + x, b.top + y, b.right + x, b.bottom + y⟩

/-- `BBox.shrink(val)`. -/
def BBoxQ.shrink (b : BBoxQ) (v : ℚ) : BBoxQ :=
  ⟨b.left + v, b.top + v, b.right - v, b.bottom - v⟩

/-! ## `Draw.get_multiline_text` (greedy word wrap)

Text measurement goes through PIL font metrics, so the embedding is
parametrised by the measured width `wOf candidate` of a candidate line
(`self.textbbox(candidate, (0, 0), font).width` in the source).
-/

/-- Python `text.split(" ")` on the character list: split at every single
space, keeping empty fragments (`"a  b".split(" ") == ['a', '', 'b']`,
`"".split(" ") == ['']`). -/
def splitCharsOnSpace : List Char → List (List Char)
  | [] => [[]]
  | c :: rest =>
      let r := splitCharsOnSpace rest
      if c = ' ' then [] :: r
      else
        match r with
        | [] => [[c]]
        | g :: gs => (c :: g) :: gs

/-- Python `text.split(" ")`. -/
def pySplitSpace (s : String) : List String := (splitCharsOnSpace s.data).map List.asString

/-- One iteration of the `for token in tokens` loop: state is
(lines so far, current line). -/
def gmtStep (wOf : String → ℚ) (width : ℚ) (st : List String × String)
    (token : String) : List String × String :=
  let current := st.2
  let candidate := if current ≠ "" then current ++ " " ++ token else token
  if wOf candidate > width ∧ current ≠ "" then (st.1 ++ [current], token)
  else (st.1, candidate)

/-- `Draw.get_multiline_text(text, width, font)`. -/
def getMultilineText (wOf : String → ℚ) (text : String) (width : ℚ) : String :=
  let tokens := pySplitSpace text
  let st := tokens.foldl (gmtStep wOf width) ([], "")
  let lines := if st.2 ≠ "" then st.1 ++ [st.2] else st.1
  String.intercalate "\n" lines

/-- Join a token list with single spaces (what a produced line is made of). -/
def joinSp : List String → String
  | [] => ""
  | [t] => t
  | t :: ts => t ++ " " ++ joinSp ts

/-- The wrap loop at the level of token chunks: state is
(finished chunks, tokens of the current line). -/
def chunkStep (wOf : String → ℚ) (width : ℚ) (st : List (List String) × List String)
    (token : String) : List (List String) × List String :=
  let candidate := joinSp (st.2 ++ [token])
  if wOf candidate > width ∧ joinSp st.2 ≠ "" then (st.1 ++ [st.2], [token])
  else (st.1, st.2 ++ [token])

/-- The chunks of consecutive tokens that `get_multiline_text` turns into
lines. -/
def wrapChunks (wOf : String → ℚ) (width : ℚ) (tokens : List String) :
    List (List String) :=
  let st := tokens.foldl (chunkStep wOf width) ([], [])
  if joinSp st.2 ≠ "" then st.1 ++ [st.2] else st.1

/-! ## `lib.print.wall_cal_base`: moon images and `DrawCell`

`DrawCell` draws onto a PIL surface; the embedding records the sequence of
drawing primitives it invokes, with all coordinates in the pre-conversion
unit space (inches) exactly as they are passed to the `Draw` wrapper.
Text measurement (`Draw.textbbox`) is a PIL query and is therefore a
parameter `tb text x y anchor` of the embedding.
-/

/-- A fill / outline color: a named color or an RGBA tuple. -/
inductive FillColor where
  | named (s : String)
  | rgba (r g b a : ℤ)
deriving DecidableEq, Repr

/-- The image pasted by a drawing primitive. -/
inductive ImgSrc where
  | photo (path : String)
  | moonIcon (path : String)
deriving DecidableEq, Repr

/-- One drawing primitive invoked by `DrawCell`.  `text` records the raw `xy`
argument as the list of its coordinates (the day-number call passes a 4-tuple
`BBox`, the event-text calls pass a 2-tuple). -/
inductive DrawOp where
  | pasteOp (src : ImgSrc) (x y : ℚ) (withMask : Bool)
  | textOp (s : String) (xy : List ℚ) (font : String × ℕ) (fill : FillColor)
      (anchor : Option String) (align : Option String)
  | rectOp (left top right bottom : ℚ) (fill : Option FillColor)
      (outline : Option FillColor) (lineWidth : ℚ)
deriving DecidableEq, Repr

/-- Python truthiness of an optional string field (`None` and `""` falsy). -/
def pyTruthyStr : Option String → Bool
  | none => false
  | some s => s ≠ ""

/-- Python truthiness of an optional day number (`None` and `0` falsy). -/
def pyTruthyNat : Option ℕ → Bool
  | none => false
  | some n => n ≠ 0

/-- Python truthiness of a `MoonPhase` instance: a plain object with no
`__bool__`/`__len__`, hence always truthy (even when it wraps `None`). -/
def pyTruthyMoon (_ : MoonPhase) : Bool := true

/-- `_MoonCalendar` phase-name constants. -/
def newMoonName : String := "New Moon"

/-- `_MoonCalendar.FIRST_QUARTER`. -/
def firstQuarterName : String := "First Quarter"

/-- `_MoonCalendar.FULL_MOON`. -/
def fullMoonName : String := "Full Moon"

/-- `_MoonCalendar.THIRD_QUARTER`. -/
def thirdQuarterName : String := "Third Quarter"

/-- `MoonPhaseImages.image(phase)`: the icon path for one of the four known
phase names, else `None` (comparison with a `None` phase is `False` for all
four branches).  Paths are relative to the module directory. -/
def moonPhaseImagePath : Option String → Option String
  | some s =>
      if s = newMoonName then some "moon-phases/new-moon.png"
      else if s = firstQuarterName then some "moon-phases/first-quarter.png"
      else if s = fullMoonName then some "moon-phases/full-moon.png"
      else if s = thirdQuarterName then some "moon-phases/third-quarter.png"
      else none
  | none => none

/-- A text-measurement oracle: `tb text x y anchor` is the `BBox` returned by
`Draw.textbbox(text, (x, y), font, anchor=anchor, align='center')`. -/
abbrev TextMeasure := String → ℚ → ℚ → Option String → BBoxQ

/-- The measured width used by `get_multiline_text`
(`self.textbbox(candidate, (0, 0), font).width`). -/
def tbWidth (tb : TextMeasure) (s : String) : ℚ := (tb s 0 0 none).width

/-- `wall_cal_base.DrawCell(page, day, pos)`: the sequence of drawing
primitives, in order. -/
def DrawCell (tb : TextMeasure) (day : Day) (pos : BBoxQ) : List DrawOp :=
  let padding : ℚ := 1/20
  let imgSize := pos.shrink (1/100)
  let hasPhoto := pyTruthyStr day.photo
  let photoOps :=
    if hasPhoto then
      [DrawOp.pasteOp (.photo (day.photo.getD "")) imgSize.left imgSize.top false]
    else []
  let dayOps :=
    if pyTruthyNat day.day then
      let dayPos := (BBoxQ.new padding padding (1/5) (1/5)).move imgSize.left imgSize.top
      [DrawOp.textOp (toString (day.day.getD 0)) [dayPos.left, dayPos.top, dayPos.right, dayPos.bottom]
        ("Roboto", 14) (.named "black") none none]
    else []
  let moonOps :=
    if pyTruthyMoon day.moonPhase then
      match moonPhaseImagePath day.moonPhase.phase with
      | some path =>
          let moonSize : ℚ := 1/5
          let moonPos := (BBoxQ.new (imgSize.width - moonSize - padding) padding moonSize moonSize).move
            imgSize.left imgSize.top
          [DrawOp.pasteOp (.moonIcon path) moonPos.left moonPos.top true]
      | none => []
    else []
  let textOps :=
    if hasPhoto then
      if pyTruthyStr day.text then
        let mtext := getMultilineText (tbWidth tb) (day.text.getD "") pos.width
        let xPos := pos.center.1
        let yPos := pos.bottom
        let bbox := tb mtext xPos yPos (some "md")
        let offset := |yPos - bbox.bottom| + 1/100
        [DrawOp.rectOp pos.left (bbox.top - offset) pos.right pos.bottom
          (some (.rgba 0 0 0 100)) none 1,
         DrawOp.textOp mtext [xPos, yPos] ("Roboto", 10) (.named "white")
          (some "md") (some "center")]
      else []
    else
      if pyTruthyStr day.text then
        let mtext := getMultilineText (tbWidth tb) (day.text.getD "") pos.width
        let xPos := pos.center.1
        let yPos := pos.bottom - 1/10
        [DrawOp.textOp mtext [xPos, yPos] ("Roboto", 10) (.named "black")
          (some "md") (some "center")]
      else []
  photoOps ++ dayOps ++ moonOps ++ textOps

/-- Is an op a rectangle? -/
def DrawOp.isRect : DrawOp → Bool
  | .rectOp _ _ _ _ _ _ _ => true
  | _ => false

/-- Is an op a moon-icon paste? -/
def DrawOp.isMoonPaste : DrawOp → Bool
  | .pasteOp (.moonIcon _) _ _ _ => true
  | _ => false

/-! ## `lib.print.draw.DrawDecoder` (type-keyed dispatch)

`DrawDecoder.draw(obj)` looks up a handler for `type(obj)`, falls back to
`obj.__draw__`, or raises.  The returned value is flattened when it is
iterable and not one of `str`/`bytes`/`PIL.Image.Image`.  Types are modelled
by their names; handler results by a small Python-value universe.
-/

/-- A Python value as seen by the decoder's iterable check. -/
inductive PyVal where
  | pilImage (tag : ℕ)
  | strVal (s : String)
  | bytesVal
  | listVal (xs : List PyVal)
  | genVal (xs : List PyVal)
  | objVal (tyName : String)

/-- `hasattr(ret, '__iter__')`. -/
def PyVal.hasIterAttr : PyVal → Bool
  | .strVal _ => true
  | .bytesVal => true
  | .listVal _ => true
  | .genVal _ => true
  | .pilImage _ => false
  | .objVal _ => false

/-- `isinstance(ret, (str, bytes, PIL.Image.Image))`. -/
def PyVal.isExcludedIterable : PyVal → Bool
  | .strVal _ => true
  | .bytesVal => true
  | .pilImage _ => true
  | _ => false

/-- The items yielded for a handler return value: `yield from ret` when `ret`
is a non-excluded iterable, else `yield ret`. -/
def decoderFlatten (ret : PyVal) : List PyVal :=
  if ret.hasIterAttr ∧ ret.isExcludedIterable = false then
    match ret with
    | .listVal xs => xs
    | .genVal xs => xs
    | _ => [ret]
  else [ret]

/-- An object as seen by `DrawDecoder.draw`: its type name, whether it has a
`__draw__` attribute, and what `obj.__draw__()` would return. -/
structure DispatchObj where
  tyName : String
  hasDrawMethod : Bool
  drawMethodRet : PyVal

/-- A handler registry (`self._handlers`), keyed by type name. -/
abbrev HandlerMap := List (String × (DispatchObj → PyVal))

/-- `DecoderBase.get_handler(type)` (`dict.get`). -/
def getHandler (handlers : HandlerMap) (ty : String) : Option (DispatchObj → PyVal) :=
  (handlers.find? (fun p => p.1 = ty)).map Prod.snd

/-- `DrawDecoder.draw(obj)`, fully consumed: handler first, `__draw__`
fallback second, else `ValueError(f"Unsuported Type {type_}")`. -/
def drawDecoderDraw (handlers : HandlerMap) (obj : DispatchObj) :
    Except String (List PyVal) :=
  match getHandler handlers obj.tyName with
  | some handler => .ok (decoderFlatten (handler obj))
  | none =>
      if obj.hasDrawMethod then .ok (decoderFlatten obj.drawMethodRet)
      else .error ("Unsuported Type " ++ obj.tyName)

/-! ## `wall_cal.DrawCalendar` and `desk_cal.DrawCalendar` page generators

For page counting, page images are tracked by provenance tags.  The wall
handlers for `FrontPage` / `CalendarArt` / `Month` each return one
`PIL.Image.Image`; `DrawCalendar` is a generator that `yield from`s the
decoder.  The desk `DrawCalendar` instead assigns
`img = ImageDrawer.draw(...)` — a *generator object*, since
`DrawDecoder.draw` is a generator function — and treats it as an image.
-/

/-- Provenance tags for rendered page images. -/
inductive PageTag where
  | frontTag
  | artTag (month : ℕ)
  | monthTag (month : ℕ)
deriving DecidableEq, Repr

/-- A page-generation value: a PIL image, a `lib.print.draw.Image` wrapper,
or an unconsumed generator object (modelled by the items it would yield). -/
inductive PageVal where
  | pil (t : PageTag)
  | wrapped (t : PageTag)
  | genObj (xs : List PageVal)

/-- What `ImageDrawer.draw(front_page)` yields in `wall_cal` (the `FrontPage`
handler returns a single PIL image, which the decoder wraps in a singleton). -/
def wallDrawFrontItems : List PageVal := [.pil .frontTag]

/-- What `ImageDrawer.draw(page.art)` yields in `wall_cal`. -/
def wallDrawArtItems (m : ℕ) : List PageVal := [.pil (.artTag m)]

/-- What `ImageDrawer.draw(page.month)` yields in `wall_cal`. -/
def wallDrawMonthItems (m : ℕ) : List PageVal := [.pil (.monthTag m)]

/-- `wall_cal.DrawCalendar(self)`, fully consumed: front page, then for each
month pair the art page followed by the month page (`yield from` each). -/
def wallDrawCalendar (c : PyCalendar) : List PageVal :=
  wallDrawFrontItems ++
    (c.pages.foldl
      (fun acc page =>
        acc ++ wallDrawArtItems page.month.month ++ wallDrawMonthItems page.month.month)
      [])

/-- `lib.print.draw.Image.__init__(image)`: opens a path, wraps a
`PIL.Image.Image`, and raises `TypeError(f"Invalid type {type(image)}")` for
anything else — in particular for a generator object. -/
def libdrawImageCtor (v : PageVal) : Except PyErr PageVal :=
  match v with
  | .pil t => .ok (.wrapped t)
  | .wrapped t => .error (.typeError "Invalid type <class 'lib.print.draw.Image'>")
  | .genObj _ => .error (.typeError "Invalid type <class 'generator'>")

/-- `DeskCalendarPage.set_calendar(image)`: the first statement that can fail
is `img = _libdraw.Image(image)` (the argument is not a `Draw`, so the
`isinstance` branch does not rewrite it). -/
def deskSetCalendar (cal : PageVal) : Except PyErr Unit :=
  match libdrawImageCtor cal with
  | .ok _ => .ok ()
  | .error e => .error e

/-- The desk `DrawCalendar` month loop: each iteration binds the art and month
*generators*, builds `DeskCalendarPage(img)` and calls
`set_calendar(cal)` — which raises `TypeError` because `cal` is a generator —
before it could yield the page. -/
def deskCalendarLoop (months : List ℕ) : List PageVal × Option PyErr :=
  match months with
  | [] => ([], none)
  | m :: rest =>
      let cal := PageVal.genObj [.pil (.monthTag m)]
      match deskSetCalendar cal with
      | .error e => ([], some e)
      | .ok _ =>
          let (xs, err) := deskCalendarLoop rest
          (PageVal.genObj [.pil (.artTag m)] :: xs, err)

/-- `desk_cal.DrawCalendar(self)`, fully consumed: the first yielded item is
`img = ImageDrawer.draw(self.front_page)` — a generator object, not an
image — and the month loop raises before yielding anything further. -/
def deskDrawCalendar (c : PyCalendar) : List PageVal × Option PyErr :=
  let first := PageVal.genObj [.pil .frontTag]
  let (rest, err) := deskCalendarLoop (c.pages.map (fun p => p.month.month))
  (first :: rest, err)

/-- Is a yielded value an actual `PIL.Image.Image`? -/
def PageVal.isPilImage : PageVal → Bool
  | .pil _ => true
  | _ => false

/-! ## `desk_cal.expan_to_legal` (legal-paper tent-fold tiling)

Raster images are modelled as a size plus a total pixel function; PIL's
`paste` clips to the canvas, so theorems only observe in-bounds pixels.
`Image.resize` (LANCZOS resampling) is a parameter; PIL guarantees the
result has exactly the requested size.
-/

/-- A pixel color. -/
inductive Px where
  | white
  | black
  | other (n : ℕ)
deriving DecidableEq, Repr

/-- A raster image: dimensions and a pixel map. -/
structure PImg where
  w : ℕ
  h : ℕ
  pix : ℕ → ℕ → Px

/-- `image.rotate(180)`: same size, both axes flipped. -/
def PImg.rot180 (i : PImg) : PImg :=
  ⟨i.w, i.h, fun x y => i.pix (i.w - 1 - x) (i.h - 1 - y)⟩

/-- `canvas.paste(stamp, (px, py))`. -/
def PImg.pasteAt (base stamp : PImg) (px py : ℕ) : PImg :=
  ⟨base.w, base.h, fun x y =>
    if px ≤ x ∧ x < px + stamp.w ∧ py ≤ y ∧ y < py + stamp.h then
      stamp.pix (x - px) (y - py)
    else base.pix x y⟩

/-- The dash-start positions of the `while y < out: … y += dash + gap` loops,
written with explicit fuel (`step ≥ 1`, so `limit + 1` iterations suffice). -/
def whileStarts (step : ℕ) (limit : ℕ) : ℕ → ℕ → List ℕ
  | 0, _ => []
  | fuel + 1, y => if y < limit then y :: whileStarts step limit fuel (y + step) else []

/-- All dash segment starts: `0, step, 2*step, …` below `limit`. -/
def dashStarts (step limit : ℕ) : List ℕ := whileStarts step limit (limit + 1) 0

/-- Is coordinate `v` on a dash of the dashed line along the other axis?
Each `draw.line` call covers `s … min(s + dashLen, limit)` inclusive. -/
def onDash (dashLen limit v : ℕ) : Bool :=
  (dashStarts (dashLen + dashLen) limit).any (fun s => s ≤ v ∧ v ≤ min (s + dashLen) limit)

/-- Draw the vertical dashed line of `expan_to_legal` at column `x0`. -/
def PImg.vDashes (i : PImg) (x0 dashLen limit : ℕ) : PImg :=
  ⟨i.w, i.h, fun x y => if x = x0 ∧ onDash dashLen limit y then .black else i.pix x y⟩

/-- Draw the horizontal dashed line of `expan_to_legal` at row `y0`. -/
def PImg.hDashes (i : PImg) (y0 dashLen limit : ℕ) : PImg :=
  ⟨i.w, i.h, fun x y => if y = y0 ∧ onDash dashLen limit x then .black else i.pix x y⟩

/-- `ppi = int(round((width/7 + height/4.25) / 2)); if ppi <= 0: ppi = 300`. -/
def elPpi (iw ih : ℕ) : ℤ :=
  let p := roundHalfEven (((iw : ℚ) / 7 + (ih : ℚ) / (17/4)) / 2)
  if p ≤ 0 then 300 else p

/-- `tile_w = int(round(DeskCalSize.WIDTH * ppi))` (7 in). -/
def elTileW (ppi : ℤ) : ℕ := (roundHalfEven ((7 : ℚ) * ppi)).toNat

/-- `tile_h = int(round(DeskCalSize.HEIGHT * ppi))` (4.25 in). -/
def elTileH (ppi : ℤ) : ℕ := (roundHalfEven ((17/4 : ℚ) * ppi)).toNat

/-- `out_w = int(round(14.0 * ppi))`. -/
def elOutW (ppi : ℤ) : ℕ := (roundHalfEven ((14 : ℚ) * ppi)).toNat

/-- `out_h = int(round(8.5 * ppi))`. -/
def elOutH (ppi : ℤ) : ℕ := (roundHalfEven ((17/2 : ℚ) * ppi)).toNat

/-- `dash_len = max(6, int(round(ppi * 0.03)))`; `gap_len = dash_len`. -/
def elDashLen (ppi : ℤ) : ℕ := max 6 (roundHalfEven ((3/100 : ℚ) * ppi)).toNat

/-- The tile actually pasted: the input, resized to the expected tile pixels
when its dimensions differ. -/
def elTile (resize : PImg → ℕ → ℕ → PImg) (image : PImg) : PImg :=
  let ppi := elPpi image.w image.h
  let tw := elTileW ppi
  let th := elTileH ppi
  if (image.w, image.h) ≠ (tw, th) then resize image tw th else image

/-- The white output canvas with the four tiles pasted (top row upright,
bottom row rotated 180°), before the cut guides are drawn. -/
def elPasted (resize : PImg → ℕ → ℕ → PImg) (image : PImg) : PImg :=
  let ppi := elPpi image.w image.h
  let tw := elTileW ppi
  let th := elTileH ppi
  let img := elTile resize image
  let canvas : PImg := ⟨elOutW ppi, elOutH ppi, fun _ _ => .white⟩
  let canvas := canvas.pasteAt img 0 0
  let canvas := canvas.pasteAt img tw 0
  let r := img.rot180
  let canvas := canvas.pasteAt r 0 th
  canvas.pasteAt r tw th

/-- `desk_cal.expan_to_legal(image)`. -/
def expanToLegal (resize : PImg → ℕ → ℕ → PImg) (image : PImg) : PImg :=
  let ppi := elPpi image.w image.h
  let tw := elTileW ppi
  let th := elTileH ppi
  let d := elDashLen ppi
  let canvas := elPasted resize image
  let canvas := canvas.vDashes tw d (elOutH ppi)
  canvas.hDashes th d (elOutW ppi)

/-! ## `png_exporter` export loops

The export drivers iterate the page generator; a `None` page appends an error
message to the result and continues.  File writes are modelled by their path
names; progress callbacks and metadata do not affect the claim and are
omitted.
-/

/-- `ExportResult` (the fields the error-handling claim observes). -/
structure ExpResult where
  files : List String
  errors : List String
  success : Bool
deriving DecidableEq, Repr

/-- `ExportResult.add_error`. -/
def ExpResult.addError (r : ExpResult) (msg : String) : ExpResult :=
  { files := r.files, errors := r.errors ++ [msg], success := false }

/-- One iteration of the wall export page loop; state is
`(page_index, output_index, result)`. -/
def wallExportStep (skipMonths : Bool) (st : ℕ × ℕ × ExpResult)
    (img : Option PageTag) : ℕ × ℕ × ExpResult :=
  let (pageIndex, outputIndex, res) := st
  let isMonthPage := 0 < pageIndex ∧ pageIndex % 2 = 0
  if skipMonths ∧ isMonthPage then (pageIndex + 1, outputIndex, res)
  else
    match img with
    | none =>
        (pageIndex + 1, outputIndex,
          res.addError ("Page " ++ toString outputIndex ++ " returned None from renderer"))
    | some _ =>
        (pageIndex + 1, outputIndex + 1,
          { res with files := res.files ++ ["Page_" ++ toString outputIndex ++ ".png"] })

/-- `PngWallCalendarExporterBase.export`: the page loop over the drained
generator. -/
def wallExport (skipMonths : Bool) (imgs : List (Option PageTag)) : ExpResult :=
  (imgs.foldl (wallExportStep skipMonths) (0, 0, ⟨[], [], true⟩)).2.2

/-- One iteration of the desk export page loop; state is
`(i, result)` with `i` the `enumerate` index. -/
def deskExportStep (st : ℕ × ExpResult) (img : Option PageTag) : ℕ × ExpResult :=
  let (i, res) := st
  match img with
  | none => (i + 1, res.addError ("Page " ++ toString i ++ " returned None from renderer"))
  | some _ => (i + 1, { res with files := res.files ++ ["Page_" ++ toString i ++ ".png"] })

/-- `PngDeskCalendarExporterBase.export`: the page loop over the drained
generator. -/
def deskExport (imgs : List (Option PageTag)) : ExpResult :=
  (imgs.foldl deskExportStep (0, ⟨[], [], true⟩)).2

/-- The claim-side description of the wall export outcome: walking the page
stream, a `None` page contributes an error naming the output page index and
processing continues; a rendered page is written as `Page_<index>.png`. -/
def wallOutcome : List (Option PageTag) → ℕ → List String × List String
  | [], _ => ([], [])
  | none :: rest, oi =>
      let (fs, es) := wallOutcome rest oi
      (fs, ("Page " ++ toString oi ++ " returned None from renderer") :: es)
  | some _ :: rest, oi =>
      let (fs, es) := wallOutcome rest (oi + 1)
      (("Page_" ++ toString oi ++ ".png") :: fs, es)

/-- The claim-side description of the desk export outcome: errors are tagged
with the stream page index. -/
def deskOutcome : List (Option PageTag) → ℕ → List String × List String
  | [], _ => ([], [])
  | none :: rest, i =>
      let (fs, es) := deskOutcome rest (i + 1)
      (fs, ("Page " ++ toString i ++ " returned None from renderer") :: es)
  | some _ :: rest, i =>
      let (fs, es) := deskOutcome rest (i + 1)
      (("Page_" ++ toString i ++ ".png") :: fs, es)

/-! ## Claims -/

/-- The `Resolution` state after `wall_cal.py` / `desk_cal.py` module load:
`Resolution.unit = Units.IN` at the default 300 dpi. -/
def resStateIn : ResState := ⟨300, "in", .inK, .inR⟩

/-- **C1** (failing-input evaluation).  The claim states that `Month.table`
always yields exactly 6 rows.  February 2015 begins on a Sunday and has 28
days, so `calendar.monthcalendar` returns 4 week rows; `Month.__init__` then
appends a single padding week (`if len(self._cells) < 6`, not a loop), so the
table has only 5 rows.  The other claimed properties do hold here: every row
has 7 cells and the non-`None` day numbers are exactly 1..28 in increasing
order. -/
theorem c1_month_2015_02_table_has_five_rows :
    ((Month.new 2015 2).table.2).length = 5 ∧
    (∀ row ∈ (Month.new 2015 2).table.2, row.length = 7) ∧
    ((Month.new 2015 2).table.2.flatten.filterMap (fun d => d.day)) =
      (List.range 28).map (· + 1) ∧
    (Month.new 2015 2).table.1 = weekdayNames ∧
    ((Month.new 2015 2).table.2).length ≠ 6 := by
  refine ⟨by decide, by decide, by decide, by decide, by decide⟩

/-- `int()` of an integer-valued rational is that integer. -/
theorem pyInt_intCast (n : ℤ) : pyInt (n : ℚ) = n := by
  unfold pyInt
  split <;> simp

/-- The `"in"` round trip at 300 dpi, for a value whose conversion is exact. -/
theorem resRoundtripIn (q : ℚ) (n : ℤ) (h1 : q * 300 = (n : ℚ))
    (h2 : (n : ℚ) / 300 = q) :
    resStateIn.ptToNum ((resStateIn.toPtNum q : ℤ) : ℚ) = q := by
  have ht : resStateIn.toPtNum q = n := by
    have : q * ((300 : ℤ) : ℚ) = (n : ℚ) := by push_cast; exact_mod_cast h1
    simp only [ResState.toPtNum, resStateIn, runToPt, in_to_pt, this, pyInt_intCast]
  rw [ht]
  simpa only [ResState.ptToNum, resStateIn, runPtTo] using h2

/-- **C3** (failing-input evaluation).  `_Resolution` defines `mm_to_pt`,
`cm_to_pt` and `px_to_pt` but no `pt_to_mm`, `pt_to_cm` or `pt_to_px`, so the
`unit` setter's second `getattr` raises `AttributeError` for the units mm, cm
and px; only `"in"` (and `"pt"`) can be installed.  For the unit that does
work, the round-trip `pt_to(to_pt(x)) = x` holds exactly at dpi 300 for the
representative values 0, 1, 12.5 and 300. -/
theorem c3_unit_setter_rejects_mm_cm_px :
    ResState.init.setUnit "mm" = .error (.attributeError "pt_to_mm") ∧
    ResState.init.setUnit "cm" = .error (.attributeError "pt_to_cm") ∧
    ResState.init.setUnit "px" = .error (.attributeError "pt_to_px") ∧
    ResState.init.setUnit "in" = .ok resStateIn ∧
    resStateIn.ptToNum (resStateIn.toPtNum 0) = 0 ∧
    resStateIn.ptToNum (resStateIn.toPtNum 1) = 1 ∧
    resStateIn.ptToNum (resStateIn.toPtNum (25/2)) = 25/2 ∧
    resStateIn.ptToNum (resStateIn.toPtNum 300) = 300 := by
  refine ⟨rfl, rfl, rfl, rfl, ?_, ?_, ?_, ?_⟩
  · exact resRoundtripIn 0 0 (by norm_num) (by norm_num)
  · exact resRoundtripIn 1 300 (by norm_num) (by norm_num)
  · exact resRoundtripIn (25/2) 3750 (by norm_num) (by norm_num)
  · exact resRoundtripIn 300 90000 (by norm_num) (by norm_num)

/-- **C4** (failing-input evaluation).  `px_to_pt(px)` is implemented as
`in_to_pt(px * 96)` — it multiplies by 96 instead of dividing — so
`to_pt("12.5px")` at dpi 300 returns `int(12.5 * 96 * 300) = 360000`, not the
claimed `int((12.5 / 96) * 300) = 39`.  The in/mm/cm rows of the claimed
conversion table are implemented as stated. -/
theorem c4_px_conversion_multiplies_by_96 :
    resStateIn.toPtStr "12.5px" = .ok 360000 ∧
    pyInt ((25/2) / 96 * 300) = 39 ∧
    (360000 : ℤ) ≠ 39 ∧
    resStateIn.toPtStr "1in" = .ok 300 ∧
    resStateIn.toPtStr "25.4mm" = .ok 300 ∧
    resStateIn.toPtStr "2.54cm" = .ok 300 := by
  have hpx : parseNumSuffixRaw "12.5px" = some (false, 125, 1, "px") := by decide
  have hin : parseNumSuffixRaw "1in" = some (false, 1, 0, "in") := by decide
  have hmm : parseNumSuffixRaw "25.4mm" = some (false, 254, 1, "mm") := by decide
  have hcm : parseNumSuffixRaw "2.54cm" = some (false, 254, 2, "cm") := by decide
  refine ⟨?_, ?_, by decide, ?_, ?_, ?_⟩
  · simp [ResState.toPtStr, parseNumSuffix, hpx, parsedValue,
      toPtKindOfName, resStateIn, runToPt, in_to_pt]
    norm_num [pyInt]
  · norm_num [pyInt]
  · simp [ResState.toPtStr, parseNumSuffix, hin, parsedValue,
      toPtKindOfName, resStateIn, runToPt, in_to_pt]
    norm_num [pyInt]
  · simp [ResState.toPtStr, parseNumSuffix, hmm, parsedValue,
      toPtKindOfName, resStateIn, runToPt, in_to_pt, mm_to_in]
    norm_num [pyInt]
  · simp [ResState.toPtStr, parseNumSuffix, hcm, parsedValue,
      toPtKindOfName, resStateIn, runToPt, in_to_pt, mm_to_in]
    norm_num [pyInt]

/-- Length of the wall month-pair fold: two pages per month pair. -/
theorem wallFold_length (l : List MonthInfo) (acc : List PageVal) :
    (l.foldl
      (fun acc page =>
        acc ++ wallDrawArtItems page.month.month ++ wallDrawMonthItems page.month.month)
      acc).length = acc.length + 2 * l.length := by
  induction l generalizing acc with
  | nil => simp
  | cons p t ih =>
      rw [List.foldl_cons, ih]
      simp only [List.length_append, List.length_cons, List.length_nil,
        wallDrawArtItems, wallDrawMonthItems]
      omega

/-- Every page of the wall month-pair fold is a PIL image (given the
accumulator is). -/
theorem wallFold_allPil (l : List MonthInfo) (acc : List PageVal)
    (hacc : ∀ v ∈ acc, v.isPilImage = true) :
    ∀ v ∈ (l.foldl
      (fun acc page =>
        acc ++ wallDrawArtItems page.month.month ++ wallDrawMonthItems page.month.month)
      acc), v.isPilImage = true := by
  induction l generalizing acc with
  | nil => exact hacc
  | cons p t ih =>
      refine ih _ ?_
      intro v hv
      rcases List.mem_append.mp hv with hv | hv
      · rcases List.mem_append.mp hv with hv | hv
        · exact hacc v hv
        · simp only [wallDrawArtItems, List.mem_singleton] at hv
          subst hv; rfl
      · simp only [wallDrawMonthItems, List.mem_singleton] at hv
        subst hv; rfl

/-- **C2** (failing-input evaluation).  For every calendar built by
`Calendar.__init__` (12 month pairs), the wall variant's
`ImageDrawer.draw(calendar)` yields exactly 25 PIL page images.  The desk
variant's `DrawCalendar`, however, assigns `img = ImageDrawer.draw(...)` — a
generator object, since `DrawDecoder.draw` is a generator function — so its
first yielded item is a generator, not an image, and its month loop raises
`TypeError` inside `DeskCalendarPage.set_calendar` (via
`lib.print.draw.Image.__init__`) before yielding a single month page:
consuming it never produces 13 page images. -/
theorem c2_wall_25_pages_desk_generator_crash (year : ℕ) (ev : Option EventsFn) :
    (wallDrawCalendar (Calendar.new year ev)).length = 25 ∧
    (∀ v ∈ wallDrawCalendar (Calendar.new year ev), v.isPilImage = true) ∧
    deskDrawCalendar (Calendar.new year ev) =
      ([.genObj [.pil .frontTag]], some (.typeError "Invalid type <class 'generator'>")) ∧
    (PageVal.genObj [.pil .frontTag]).isPilImage = false := by
  have h12 : (Calendar.new year ev).pages.length = 12 := by
    simp [Calendar.new]
  refine ⟨?_, ?_, ?_, rfl⟩
  · simp only [wallDrawCalendar, List.length_append, wallFold_length, h12,
      wallDrawFrontItems, List.length_cons, List.length_nil]
  · intro v hv
    rcases List.mem_append.mp hv with hv | hv
    · simp only [wallDrawFrontItems, List.mem_singleton] at hv
      subst hv; rfl
    · exact wallFold_allPil _ [] (by intro v h; cases h) v hv
  · cases hcp : (Calendar.new year ev).pages with
    | nil => rw [hcp] at h12; simp at h12
    | cons p rest =>
        unfold deskDrawCalendar
        rw [hcp]
        rfl

/-- **C8**.  `DrawDecoder.draw` dispatches to the handler registered for the
exact type when one exists, else to the object's `__draw__`, else raises an
error naming the unsupported type; the error occurs exactly when neither a
handler nor a `__draw__` attribute exists. -/
theorem c8_decoder_dispatch (handlers : HandlerMap) (obj : DispatchObj) :
    ((∃ e, drawDecoderDraw handlers obj = .error e) ↔
      getHandler handlers obj.tyName = none ∧ obj.hasDrawMethod = false) ∧
    (getHandler handlers obj.tyName = none → obj.hasDrawMethod = false →
      drawDecoderDraw handlers obj = .error ("Unsuported Type " ++ obj.tyName)) ∧
    (∀ h, getHandler handlers obj.tyName = some h →
      drawDecoderDraw handlers obj = .ok (decoderFlatten (h obj))) ∧
    (getHandler handlers obj.tyName = none → obj.hasDrawMethod = true →
      drawDecoderDraw handlers obj = .ok (decoderFlatten obj.drawMethodRet)) := by
  unfold drawDecoderDraw
  cases hh : getHandler handlers obj.tyName with
  | some h => cases hd : obj.hasDrawMethod <;> simp [hh, hd]
  | none => cases hd : obj.hasDrawMethod <;> simp [hh, hd]

/-- Witness for C8: an object of unregistered type `Foo` with no `__draw__`
raises the naming error, and a registered handler is dispatched to. -/
theorem c8_decoder_dispatch_witness :
    drawDecoderDraw [] ⟨"Foo", false, .bytesVal⟩ =
      .error ("Unsuported Type " ++ "Foo") ∧
    drawDecoderDraw [("Bar", fun _ => .genVal [.pilImage 3, .pilImage 7])]
      ⟨"Bar", false, .bytesVal⟩ = .ok [.pilImage 3, .pilImage 7] := by
  constructor
  · exact (c8_decoder_dispatch [] ⟨"Foo", false, .bytesVal⟩).2.1 rfl rfl
  · exact (c8_decoder_dispatch [("Bar", fun _ => .genVal [.pilImage 3, .pilImage 7])]
      ⟨"Bar", false, .bytesVal⟩).2.2.1 _ rfl

/-- The wall export loop (without month skipping) refines the per-page
outcome description: state is threaded, `None` pages append an error and
processing continues. -/
theorem wallExport_spec (imgs : List (Option PageTag)) :
    ∀ (pi oi : ℕ) (fs es : List String) (su : Bool),
      imgs.foldl (wallExportStep false) (pi, oi, ⟨fs, es, su⟩) =
        (pi + imgs.length, oi + (wallOutcome imgs oi).1.length,
          ⟨fs ++ (wallOutcome imgs oi).1, es ++ (wallOutcome imgs oi).2,
            su && (wallOutcome imgs oi).2.isEmpty⟩) := by
  induction imgs with
  | nil => intro pi oi fs es su; simp [wallOutcome]
  | cons img rest ih =>
      intro pi oi fs es su
      cases img with
      | none =>
          have hstep : wallExportStep false (pi, oi, ⟨fs, es, su⟩) none =
              (pi + 1, oi,
                ⟨fs, es ++ ["Page " ++ toString oi ++ " returned None from renderer"], false⟩) := by
            simp [wallExportStep, ExpResult.addError]
          rw [List.foldl_cons, hstep, ih]
          simp only [wallOutcome, Prod.mk.injEq, ExpResult.mk.injEq, List.length_cons,
            List.isEmpty_cons, Bool.false_and, Bool.and_false, List.append_assoc,
            List.cons_append, List.nil_append]
          repeat' apply And.intro
          all_goals first | omega | rfl | trivial
      | some t =>
          have hstep : wallExportStep false (pi, oi, ⟨fs, es, su⟩) (some t) =
              (pi + 1, oi + 1,
                ⟨fs ++ ["Page_" ++ toString oi ++ ".png"], es, su⟩) := by
            simp [wallExportStep]
          rw [List.foldl_cons, hstep, ih]
          simp only [wallOutcome, Prod.mk.injEq, ExpResult.mk.injEq, List.length_cons,
            List.append_assoc, List.cons_append, List.nil_append]
          repeat' apply And.intro
          all_goals first | omega | rfl | trivial

/-- The desk export loop refines the per-page outcome description. -/
theorem deskExport_spec (imgs : List (Option PageTag)) :
    ∀ (i : ℕ) (fs es : List String) (su : Bool),
      imgs.foldl deskExportStep (i, ⟨fs, es, su⟩) =
        (i + imgs.length,
          ⟨fs ++ (deskOutcome imgs i).1, es ++ (deskOutcome imgs i).2,
            su && (deskOutcome imgs i).2.isEmpty⟩) := by
  induction imgs with
  | nil => intro i fs es su; simp [deskOutcome]
  | cons img rest ih =>
      intro i fs es su
      cases img with
      | none =>
          have hstep : deskExportStep (i, ⟨fs, es, su⟩) none =
              (i + 1, ⟨fs, es ++ ["Page " ++ toString i ++ " returned None from renderer"], false⟩) := by
            simp [deskExportStep, ExpResult.addError]
          rw [List.foldl_cons, hstep, ih]
          simp only [deskOutcome, Prod.mk.injEq, ExpResult.mk.injEq, List.length_cons,
            List.isEmpty_cons, Bool.false_and, Bool.and_false, List.append_assoc,
            List.cons_append, List.nil_append]
          repeat' apply And.intro
          all_goals first | omega | rfl | trivial
      | some t =>
          have hstep : deskExportStep (i, ⟨fs, es, su⟩) (some t) =
              (i + 1, ⟨fs ++ ["Page_" ++ toString i ++ ".png"], es, su⟩) := by
            simp [deskExportStep]
          rw [List.foldl_cons, hstep, ih]
          simp only [deskOutcome, Prod.mk.injEq, ExpResult.mk.injEq, List.length_cons,
            List.append_assoc, List.cons_append, List.nil_append]
          repeat' apply And.intro
          all_goals first | omega | rfl | trivial

/-- File and error counts of the claim-side wall outcome. -/
theorem wallOutcome_lengths (imgs : List (Option PageTag)) :
    ∀ oi, (wallOutcome imgs oi).1.length = (imgs.filter Option.isSome).length ∧
      (wallOutcome imgs oi).2.length = (imgs.filter Option.isNone).length := by
  induction imgs with
  | nil => intro oi; simp [wallOutcome]
  | cons img rest ih =>
      intro oi
      cases img with
      | none => simp [wallOutcome, ih oi]
      | some t => simp [wallOutcome, ih (oi + 1)]

/-- **C9**.  During wall and desk PNG export, a `None` page appends an error
message naming the page index (the output index for wall, the stream index
for desk) and processing continues through the whole stream; the returned
result carries both the written files and the per-page error strings, and it
is marked successful exactly when no page failed. -/
theorem c9_export_continues_after_none_page (imgs : List (Option PageTag)) :
    wallExport false imgs =
      ⟨(wallOutcome imgs 0).1, (wallOutcome imgs 0).2, (wallOutcome imgs 0).2.isEmpty⟩ ∧
    deskExport imgs =
      ⟨(deskOutcome imgs 0).1, (deskOutcome imgs 0).2, (deskOutcome imgs 0).2.isEmpty⟩ ∧
    (wallOutcome imgs 0).1.length = (imgs.filter Option.isSome).length ∧
    (wallOutcome imgs 0).2.length = (imgs.filter Option.isNone).length := by
  refine ⟨?_, ?_, (wallOutcome_lengths imgs 0).1, (wallOutcome_lengths imgs 0).2⟩
  · unfold wallExport
    rw [wallExport_spec imgs 0 0 [] [] true]
    simp
  · unfold deskExport
    rw [deskExport_spec imgs 0 [] [] true]
    simp

/-- **C10**.  `Day` always stores a `MoonPhase` instance (even for
`moon_phase=None`), a `MoonPhase` instance is always truthy, so `DrawCell`'s
`if day.moon_phase:` guard passes for every day and the moon icon is pasted
exactly when `MoonPhaseImages.image` finds a path — which fails exactly for
phase names outside the four known phases (including the `None` phase). -/
theorem c10_moon_guard_always_truthy :
    (∀ (dd : Option ℕ) (pp tt mp : Option String),
      (Day.new dd pp tt mp).moonPhase = ⟨mp⟩) ∧
    (∀ d : Day, pyTruthyMoon d.moonPhase = true) ∧
    (∀ (tb : TextMeasure) (d : Day) (pos : BBoxQ),
      ((DrawCell tb d pos).any DrawOp.isMoonPaste) =
        (moonPhaseImagePath d.moonPhase.phase).isSome) ∧
    (∀ p : String, (moonPhaseImagePath (some p) = none ↔
      p ≠ newMoonName ∧ p ≠ firstQuarterName ∧ p ≠ fullMoonName ∧ p ≠ thirdQuarterName)) ∧
    moonPhaseImagePath none = none := by
  refine ⟨fun _ _ _ _ => rfl, fun _ => rfl, ?_, ?_, rfl⟩
  · intro tb d pos
    unfold DrawCell
    cases hmp : moonPhaseImagePath d.moonPhase.phase with
    | none =>
        simp only [pyTruthyMoon, if_true, hmp, List.any_append]
        split_ifs <;> simp [DrawOp.isMoonPaste]
    | some path =>
        simp only [pyTruthyMoon, if_true, hmp, List.any_append]
        split_ifs <;> simp [DrawOp.isMoonPaste]
  · intro p
    simp only [moonPhaseImagePath]
    split_ifs with h1 h2 h3 h4 <;> simp_all

/-- Witness for C10: the third conjunct evaluated at a concrete measurement
function, a day with a `Full Moon` phase, and a day built with
`moon_phase=None`. -/
theorem c10_moon_guard_always_truthy_witness :
    ((DrawCell (fun _ _ _ _ => ⟨0, 0, 0, 0⟩) (Day.new (some 3) none none (some "Full Moon"))
        (BBoxQ.new 0 0 2 1)).any DrawOp.isMoonPaste) = true ∧
    ((DrawCell (fun _ _ _ _ => ⟨0, 0, 0, 0⟩) (Day.new (some 3) none none none)
        (BBoxQ.new 0 0 2 1)).any DrawOp.isMoonPaste) = false := by
  constructor
  · rw [(c10_moon_guard_always_truthy).2.2.1 (fun _ _ _ _ => ⟨0, 0, 0, 0⟩)
      (Day.new (some 3) none none (some "Full Moon")) (BBoxQ.new 0 0 2 1)]
    rfl
  · rw [(c10_moon_guard_always_truthy).2.2.1 (fun _ _ _ _ => ⟨0, 0, 0, 0⟩)
      (Day.new (some 3) none none none) (BBoxQ.new 0 0 2 1)]
    rfl

/-- **C5** (amended).  For every day with non-empty text: with a photo,
`DrawCell` draws exactly one rectangle — semi-transparent dark fill
`(0, 0, 0, 100)` — spanning the **full cell width** (`pos.left … pos.right`)
and extending vertically from slightly above the measured wrapped-text top
(`bbox.top - (|pos.bottom - bbox.bottom| + 0.01)`) down to the cell bottom,
and the final op draws the wrapped text in white anchored `'md'` at the
cell's bottom-center; with no photo it draws no rectangle and the final op
draws the text in dark (black) anchored `'md'` at 0.1 in above the bottom
edge. -/
theorem c5_cell_text_background (tb : TextMeasure) (d : Day) (pos : BBoxQ)
    (ht : pyTruthyStr d.text = true) :
    (pyTruthyStr d.photo = true →
      ((DrawCell tb d pos).filter DrawOp.isRect) =
        [DrawOp.rectOp pos.left
          ((tb (getMultilineText (tbWidth tb) (d.text.getD "") pos.width)
              pos.center.1 pos.bottom (some "md")).top -
            (|pos.bottom - (tb (getMultilineText (tbWidth tb) (d.text.getD "") pos.width)
              pos.center.1 pos.bottom (some "md")).bottom| + 1/100))
          pos.right pos.bottom (some (.rgba 0 0 0 100)) none 1] ∧
      (DrawCell tb d pos).getLast? =
        some (DrawOp.textOp (getMultilineText (tbWidth tb) (d.text.getD "") pos.width)
          [pos.center.1, pos.bottom] ("Roboto", 10) (.named "white")
          (some "md") (some "center"))) ∧
    (pyTruthyStr d.photo = false →
      ((DrawCell tb d pos).filter DrawOp.isRect) = [] ∧
      (DrawCell tb d pos).getLast? =
        some (DrawOp.textOp (getMultilineText (tbWidth tb) (d.text.getD "") pos.width)
          [pos.center.1, pos.bottom - 1/10] ("Roboto", 10) (.named "black")
          (some "md") (some "center"))) := by
  constructor
  · intro hp
    unfold DrawCell
    simp only [hp, ht, pyTruthyMoon, if_true]
    cases hmp : moonPhaseImagePath d.moonPhase.phase <;>
      split_ifs <;>
        simp [DrawOp.isRect, List.filter_append, List.getLast?_append]
  · intro hp
    unfold DrawCell
    simp only [hp, ht, pyTruthyMoon, if_true, Bool.false_eq_true, if_false]
    cases hmp : moonPhaseImagePath d.moonPhase.phase <;>
      split_ifs <;>
        simp [DrawOp.isRect, List.filter_append, List.getLast?_append]

/-- Witness for C5: at a concrete measurement function and cell, the
photo-and-text day draws exactly one background rectangle and the text-only
day draws none. -/
theorem c5_cell_text_background_witness :
    ((DrawCell (fun _ _ _ _ => ⟨3/4, 7/10, 5/4, 19/20⟩)
        (Day.new (some 5) (some "photo.jpg") (some "hello world") none)
        (BBoxQ.new 0 0 2 1)).filter DrawOp.isRect).length = 1 ∧
    ((DrawCell (fun _ _ _ _ => ⟨3/4, 7/10, 5/4, 19/20⟩)
        (Day.new (some 5) none (some "hello world") none)
        (BBoxQ.new 0 0 2 1)).filter DrawOp.isRect) = [] := by
  constructor
  · rw [((c5_cell_text_background (fun _ _ _ _ => ⟨3/4, 7/10, 5/4, 19/20⟩)
      (Day.new (some 5) (some "photo.jpg") (some "hello world") none)
      (BBoxQ.new 0 0 2 1) (by decide)).1 (by decide)).1]
    rfl
  · exact ((c5_cell_text_background (fun _ _ _ _ => ⟨3/4, 7/10, 5/4, 19/20⟩)
      (Day.new (some 5) none (some "hello world") none)
      (BBoxQ.new 0 0 2 1) (by decide)).2 (by decide)).1

/-- **C5** (counterexample to the claim as stated).  With the measured
wrapped-text bounding box `(3/4, 7/10, 5/4, 19/20)` — a box 1/2 in wide —
inside a 2 in × 1 in cell, the background rectangle `DrawCell` draws spans
the full cell width `[0, 2]`: its width exceeds the measured text width by
1.5 in, so it is *not* sized to the measured wrapped-text bounding box plus
a small fixed margin (the code's own vertical margin constant is 0.01 in;
even 0.1 in per side is exceeded seven-fold). -/
theorem c5_counterexample_rect_spans_cell_width :
    ((DrawCell (fun _ _ _ _ => ⟨3/4, 7/10, 5/4, 19/20⟩)
        (Day.new (some 5) (some "photo.jpg") (some "hi") none)
        (BBoxQ.new 0 0 2 1)).filter DrawOp.isRect) =
      [DrawOp.rectOp 0 (16/25) 2 1 (some (.rgba 0 0 0 100)) none 1] ∧
    (BBoxQ.width ⟨3/4, 7/10, 5/4, 19/20⟩) = 1/2 ∧
    (2 : ℚ) - 0 - (1/2) = 3/2 ∧
    ¬((2 : ℚ) - 0 ≤ 1/2 + 2 * (1/10)) := by
  refine ⟨?_, by norm_num [BBoxQ.width], by norm_num, by norm_num⟩
  rw [((c5_cell_text_background (fun _ _ _ _ => ⟨3/4, 7/10, 5/4, 19/20⟩)
      (Day.new (some 5) (some "photo.jpg") (some "hi") none)
      (BBoxQ.new 0 0 2 1) (by decide)).1 (by decide)).1]
  have habs : |(0 : ℚ) + 1 - 19/20| = 1/20 := by
    rw [abs_of_nonneg] <;> norm_num
  simp only [BBoxQ.new]
  rw [habs]
  norm_num

/-! ### Word-wrap lemmas (C7) -/

/-- `joinSp` of a snoc onto a non-empty list. -/
theorem joinSp_snoc_ne (l : List String) (x : String) (hl : l ≠ []) :
    joinSp (l ++ [x]) = joinSp l ++ " " ++ x := by
  induction l with
  | nil => exact absurd rfl hl
  | cons t ts ih =>
      cases ts with
      | nil => rfl
      | cons t2 ts2 =>
          have h1 : joinSp ((t :: t2 :: ts2) ++ [x]) =
              t ++ " " ++ joinSp ((t2 :: ts2) ++ [x]) := rfl
          have h2 : joinSp (t :: t2 :: ts2) = t ++ " " ++ joinSp (t2 :: ts2) := rfl
          rw [h1, ih (by simp), h2]
          simp [String.append_assoc]

/-- `joinSp` of a snoc. -/
theorem joinSp_snoc (l : List String) (x : String) :
    joinSp (l ++ [x]) = if l = [] then x else joinSp l ++ " " ++ x := by
  by_cases hl : l = []
  · subst hl
    simp [joinSp]
  · rw [if_neg hl, joinSp_snoc_ne l x hl]

/-- A space-joined list of non-empty tokens is empty only for the empty
list. -/
theorem joinSp_ne_empty (l : List String) (hne : ∀ t ∈ l, t ≠ "") (hl : l ≠ []) :
    joinSp l ≠ "" := by
  cases l with
  | nil => exact absurd rfl hl
  | cons t ts =>
      cases ts with
      | nil => simpa [joinSp] using hne t (by simp)
      | cons t2 ts2 =>
          intro h
          rw [show joinSp (t :: t2 :: ts2) = t ++ " " ++ joinSp (t2 :: ts2) from rfl] at h
          have hlen := congrArg String.length h
          rw [String.length_append, String.length_append] at hlen
          have hsp : (" " : String).length = 1 := rfl
          have h0 : ("" : String).length = 0 := rfl
          rw [hsp, h0] at hlen
          omega

/-- Monotone measures bound every member token by the joined line. -/
theorem wOf_le_joinSp (wOf : String → ℚ)
    (hmono : ∀ a b : String, wOf a ≤ wOf (a ++ b) ∧ wOf b ≤ wOf (a ++ b)) :
    ∀ (l : List String) (t : String), t ∈ l → wOf t ≤ wOf (joinSp l) := by
  intro l
  induction l with
  | nil => intro t ht; cases ht
  | cons x ts ih =>
      intro t ht
      cases ts with
      | nil =>
          rw [List.mem_singleton] at ht
          subst ht
          exact le_refl _
      | cons t2 ts2 =>
          rcases List.mem_cons.mp ht with rfl | hmem
          · have h := (hmono t (" " ++ joinSp (t2 :: ts2))).1
            rw [show joinSp (t :: t2 :: ts2) = t ++ " " ++ joinSp (t2 :: ts2) from rfl,
              String.append_assoc]
            exact h
          · have h1 := ih t hmem
            have h2 := (hmono (x ++ " ") (joinSp (t2 :: ts2))).2
            rw [String.append_assoc] at h2
            calc wOf t ≤ wOf (joinSp (t2 :: ts2)) := h1
              _ ≤ wOf (x ++ (" " ++ joinSp (t2 :: ts2))) := h2
              _ = wOf (joinSp (x :: t2 :: ts2)) := by
                  rw [show joinSp (x :: t2 :: ts2) = x ++ " " ++ joinSp (t2 :: ts2) from rfl,
                    String.append_assoc]

/-- The greedy wrap loop, seen on token chunks, loses no token. -/
theorem chunk_join (wOf : String → ℚ) (width : ℚ) :
    ∀ (tokens : List String) (done : List (List String)) (cur : List String),
      (tokens.foldl (chunkStep wOf width) (done, cur)).1.flatten ++
        (tokens.foldl (chunkStep wOf width) (done, cur)).2 =
        done.flatten ++ (cur ++ tokens) := by
  intro tokens
  induction tokens with
  | nil => intro done cur; simp
  | cons tok rest ih =>
      intro done cur
      rw [List.foldl_cons]
      by_cases hover : wOf (joinSp (cur ++ [tok])) > width ∧ joinSp cur ≠ ""
      · rw [show chunkStep wOf width (done, cur) tok = (done ++ [cur], [tok]) from by
          simp only [chunkStep]; rw [if_pos hover]]
        rw [ih]
        simp
      · rw [show chunkStep wOf width (done, cur) tok = (done, cur ++ [tok]) from by
          simp only [chunkStep]; rw [if_neg hover]]
        rw [ih]
        simp

/-- The loop invariant of the greedy wrap: finished and in-progress chunks
are non-empty runs of non-empty tokens, any multi-token chunk fits, an empty
current chunk only occurs initially, and consecutive chunks broke because
the joined line plus the next chunk's first word overflowed. -/
def WrapInv (wOf : String → ℚ) (width : ℚ)
    (st : List (List String) × List String) : Prop :=
  (∀ c ∈ st.1, c ≠ [] ∧ ∀ t ∈ c, t ≠ "") ∧
  (∀ t ∈ st.2, t ≠ "") ∧
  (∀ c ∈ st.1, 2 ≤ c.length → wOf (joinSp c) ≤ width) ∧
  (2 ≤ st.2.length → wOf (joinSp st.2) ≤ width) ∧
  (st.2 = [] → st.1 = []) ∧
  List.Chain' (fun c1 c2 => width < wOf (joinSp (c1 ++ [c2.headI]))) (st.1 ++ [st.2])

/-- One wrap step preserves the invariant. -/
theorem wrapInv_step (wOf : String → ℚ) (width : ℚ)
    (done : List (List String)) (cur : List String) (tok : String) (htok : tok ≠ "")
    (h : WrapInv wOf width (done, cur)) :
    WrapInv wOf width (chunkStep wOf width (done, cur) tok) := by
  obtain ⟨hne, hcurne, hbound, hcurbound, hemp, hchain⟩ := h
  by_cases hover : wOf (joinSp (cur ++ [tok])) > width ∧ joinSp cur ≠ ""
  · rw [show chunkStep wOf width (done, cur) tok = (done ++ [cur], [tok]) from by
      simp only [chunkStep]; rw [if_pos hover]]
    have hcurnil : cur ≠ [] := by
      intro hc
      exact hover.2 (by rw [hc]; rfl)
    refine ⟨?_, ?_, ?_, ?_, ?_, ?_⟩
    · intro c hc
      rcases List.mem_append.mp hc with hc | hc
      · exact hne c hc
      · rw [List.mem_singleton] at hc
        subst hc
        exact ⟨hcurnil, hcurne⟩
    · intro t ht
      rw [List.mem_singleton] at ht
      subst ht
      exact htok
    · intro c hc
      rcases List.mem_append.mp hc with hc | hc
      · exact hbound c hc
      · rw [List.mem_singleton] at hc
        subst hc
        exact hcurbound
    · simp
    · simp
    · rw [List.chain'_append]
      refine ⟨hchain, List.chain'_singleton _, ?_⟩
      intro x hx y hy
      rw [List.getLast?_concat, Option.mem_some_iff] at hx
      subst hx
      simp only [List.head?_cons, Option.mem_some_iff] at hy
      subst hy
      simpa using hover.1
  · rw [show chunkStep wOf width (done, cur) tok = (done, cur ++ [tok]) from by
      simp only [chunkStep]; rw [if_neg hover]]
    refine ⟨hne, ?_, hbound, ?_, ?_, ?_⟩
    · intro t ht
      rcases List.mem_append.mp ht with ht | ht
      · exact hcurne t ht
      · rw [List.mem_singleton] at ht
        subst ht
        exact htok
    · intro hlen
      by_cases hcnil : cur = []
      · subst hcnil
        simp at hlen
      · have hjoin : joinSp cur ≠ "" := joinSp_ne_empty cur hcurne hcnil
        by_contra hgt
        push_neg at hgt
        exact hover ⟨hgt, hjoin⟩
    · intro habs
      rcases List.append_eq_nil.mp habs with ⟨_, h2⟩
      cases h2
    · by_cases hcnil : cur = []
      · have hdone : done = [] := hemp hcnil
        subst hcnil hdone
        simp
      · rw [List.chain'_append] at hchain ⊢
        refine ⟨hchain.1, List.chain'_singleton _, ?_⟩
        intro x hx y hy
        simp only [List.head?_cons, Option.mem_some_iff] at hy
        subst hy
        have hlink := hchain.2.2 x hx cur (by simp)
        have hheads : (cur ++ [tok]).headI = cur.headI := by
          cases cur with
          | nil => exact absurd rfl hcnil
          | cons a l => rfl
        rw [hheads]
        exact hlink

/-- The invariant holds after folding any list of non-empty tokens. -/
theorem wrapInv_foldl (wOf : String → ℚ) (width : ℚ) :
    ∀ (tokens : List String), (∀ t ∈ tokens, t ≠ "") →
      ∀ (done : List (List String)) (cur : List String), WrapInv wOf width (done, cur) →
        WrapInv wOf width (tokens.foldl (chunkStep wOf width) (done, cur)) := by
  intro tokens
  induction tokens with
  | nil => intro _ done cur h; exact h
  | cons tok rest ih =>
      intro htok done cur h
      rw [List.foldl_cons]
      have hstep := wrapInv_step wOf width done cur tok
        (htok tok (List.mem_cons_self tok rest)) h
      obtain ⟨d2, c2, heq⟩ : ∃ d c, chunkStep wOf width (done, cur) tok = (d, c) :=
        ⟨_, _, rfl⟩
      rw [heq] at hstep ⊢
      exact ih (fun t ht => htok t (List.mem_cons_of_mem _ ht)) d2 c2 hstep

/-- The string-level wrap loop simulates the chunk-level loop. -/
theorem wrap_sim (wOf : String → ℚ) (width : ℚ) :
    ∀ (tokens : List String), (∀ t ∈ tokens, t ≠ "") →
      ∀ (done : List (List String)) (cur : List String), (∀ t ∈ cur, t ≠ "") →
        tokens.foldl (gmtStep wOf width) (done.map joinSp, joinSp cur) =
          ((tokens.foldl (chunkStep wOf width) (done, cur)).1.map joinSp,
            joinSp (tokens.foldl (chunkStep wOf width) (done, cur)).2) := by
  intro tokens
  induction tokens with
  | nil => intro _ done cur _; rfl
  | cons tok rest ih =>
      intro htok done cur hcur
      have htokrest : ∀ t ∈ rest, t ≠ "" := fun t h => htok t (List.mem_cons_of_mem _ h)
      have htok0 : tok ≠ "" := htok tok (List.mem_cons_self tok rest)
      have hcand : (if joinSp cur ≠ "" then joinSp cur ++ " " ++ tok else tok) =
          joinSp (cur ++ [tok]) := by
        rw [joinSp_snoc]
        by_cases hc : cur = []
        · subst hc
          simp [joinSp]
        · have hj : joinSp cur ≠ "" := joinSp_ne_empty cur hcur hc
          simp [hc, hj]
      rw [List.foldl_cons, List.foldl_cons]
      by_cases hover : wOf (joinSp (cur ++ [tok])) > width ∧ joinSp cur ≠ ""
      · have hg : gmtStep wOf width (done.map joinSp, joinSp cur) tok =
            ((done ++ [cur]).map joinSp, joinSp [tok]) := by
          simp only [gmtStep, hcand]
          rw [if_pos hover]
          simp [joinSp]
        have hcstep : chunkStep wOf width (done, cur) tok = (done ++ [cur], [tok]) := by
          simp only [chunkStep]
          rw [if_pos hover]
        rw [hg, hcstep]
        exact ih htokrest (done ++ [cur]) [tok] (by
          intro t ht
          rw [List.mem_singleton] at ht
          subst ht
          exact htok0)
      · have hg : gmtStep wOf width (done.map joinSp, joinSp cur) tok =
            (done.map joinSp, joinSp (cur ++ [tok])) := by
          simp only [gmtStep, hcand]
          rw [if_neg hover]
        have hcstep : chunkStep wOf width (done, cur) tok = (done, cur ++ [tok]) := by
          simp only [chunkStep]
          rw [if_neg hover]
        rw [hg, hcstep]
        exact ih htokrest done (cur ++ [tok]) (by
          intro t ht
          rcases List.mem_append.mp ht with ht | ht
          · exact hcur t ht
          · rw [List.mem_singleton] at ht
            subst ht
            exact htok0)

/-- **C7**.  For every measure `wOf` that is monotone under appending (as PIL
text measurement is) and every space-separated text with non-empty words,
`get_multiline_text` wraps greedily on spaces: its output is the chunk lines
(runs of consecutive words joined by single spaces) joined by line breaks, no
word is lost, split, or reordered, every multi-word line fits within the
width, a word wider than the width stays alone on its own line, and each line
break happened only because the previous line plus the next word overflowed.
The function is total (never raises) and deterministic by construction. -/
theorem c7_get_multiline_text_greedy_wrap (wOf : String → ℚ) (text : String) (width : ℚ)
    (hmono : ∀ a b : String, wOf a ≤ wOf (a ++ b) ∧ wOf b ≤ wOf (a ++ b))
    (htok : ∀ t ∈ pySplitSpace text, t ≠ "") :
    getMultilineText wOf text width =
      String.intercalate "\n" ((wrapChunks wOf width (pySplitSpace text)).map joinSp) ∧
    (wrapChunks wOf width (pySplitSpace text)).flatten = pySplitSpace text ∧
    (∀ c ∈ wrapChunks wOf width (pySplitSpace text), c ≠ []) ∧
    (∀ c ∈ wrapChunks wOf width (pySplitSpace text), 2 ≤ c.length →
      wOf (joinSp c) ≤ width) ∧
    (∀ c ∈ wrapChunks wOf width (pySplitSpace text), ∀ t ∈ c, width < wOf t → c = [t]) ∧
    List.Chain' (fun c1 c2 => width < wOf (joinSp (c1 ++ [c2.headI])))
      (wrapChunks wOf width (pySplitSpace text)) := by
  obtain ⟨done, cur, hres⟩ :
      ∃ d c, (pySplitSpace text).foldl (chunkStep wOf width) ([], []) = (d, c) :=
    ⟨_, _, rfl⟩
  have hinv0 : WrapInv wOf width ([], []) := by
    refine ⟨by simp, by simp, by simp, by intro h; simp at h, fun _ => rfl, ?_⟩
    simp
  have hinv := wrapInv_foldl wOf width (pySplitSpace text) htok [] [] hinv0
  rw [hres] at hinv
  obtain ⟨h1, h2, h3, h4, h5, h6⟩ := hinv
  have hjoin := chunk_join wOf width (pySplitSpace text) [] []
  rw [hres] at hjoin
  simp only [List.flatten_nil, List.nil_append] at hjoin
  have hsim := wrap_sim wOf width (pySplitSpace text) htok [] [] (by simp)
  rw [hres] at hsim
  rw [show (List.map joinSp ([] : List (List String))) = [] from rfl,
    show joinSp [] = "" from rfl] at hsim
  have hwc : wrapChunks wOf width (pySplitSpace text) =
      if joinSp cur ≠ "" then done ++ [cur] else done := by
    simp only [wrapChunks, hres]
  by_cases hc : cur = []
  · subst hc
    have hdone : done = [] := h5 rfl
    subst hdone
    have hwc2 : wrapChunks wOf width (pySplitSpace text) = [] := by
      rw [hwc]
      simp [joinSp]
    rw [hwc2]
    refine ⟨?_, by simpa using hjoin.symm, by simp, by simp, by simp, by simp⟩
    show String.intercalate "\n"
        (if ((pySplitSpace text).foldl (gmtStep wOf width) ([], "")).2 ≠ "" then
          ((pySplitSpace text).foldl (gmtStep wOf width) ([], "")).1 ++
            [((pySplitSpace text).foldl (gmtStep wOf width) ([], "")).2]
        else ((pySplitSpace text).foldl (gmtStep wOf width) ([], "")).1) =
      String.intercalate "\n" ([].map joinSp)
    rw [hsim]
    simp [joinSp]
  · have hjne : joinSp cur ≠ "" := joinSp_ne_empty cur h2 hc
    have hwc2 : wrapChunks wOf width (pySplitSpace text) = done ++ [cur] := by
      rw [hwc, if_pos hjne]
    rw [hwc2]
    refine ⟨?_, ?_, ?_, ?_, ?_, ?_⟩
    · show String.intercalate "\n"
          (if ((pySplitSpace text).foldl (gmtStep wOf width) ([], "")).2 ≠ "" then
            ((pySplitSpace text).foldl (gmtStep wOf width) ([], "")).1 ++
              [((pySplitSpace text).foldl (gmtStep wOf width) ([], "")).2]
          else ((pySplitSpace text).foldl (gmtStep wOf width) ([], "")).1) =
        String.intercalate "\n" ((done ++ [cur]).map joinSp)
      rw [hsim]
      simp only [if_pos hjne, List.map_append, List.map_cons, List.map_nil]
    · rw [List.flatten_append]
      simpa using hjoin
    · intro c hcm
      rcases List.mem_append.mp hcm with hcm | hcm
      · exact (h1 c hcm).1
      · rw [List.mem_singleton] at hcm
        subst hcm
        exact hc
    · intro c hcm
      rcases List.mem_append.mp hcm with hcm | hcm
      · exact h3 c hcm
      · rw [List.mem_singleton] at hcm
        subst hcm
        exact h4
    · intro c hcm t ht hwide
      have hle : wOf t ≤ wOf (joinSp c) := wOf_le_joinSp wOf hmono c t ht
      have hnot2 : ¬ 2 ≤ c.length := by
        intro hlen
        have hfits : wOf (joinSp c) ≤ width := by
          rcases List.mem_append.mp hcm with hcm | hcm
          · exact h3 c hcm hlen
          · rw [List.mem_singleton] at hcm
            subst hcm
            exact h4 hlen
        exact absurd (lt_of_lt_of_le hwide hle) (not_lt.mpr hfits)
      cases c with
      | nil => cases ht
      | cons a l =>
          cases l with
          | nil =>
              rw [List.mem_singleton] at ht
              subst ht
              rfl
          | cons b l2 => simp at hnot2
    · exact h6

/-- Witness for C7: the character-count measure is monotone and the words of
`"one two three"` are non-empty, so the wrap theorem applies. -/
theorem c7_get_multiline_text_greedy_wrap_witness :
    (wrapChunks (fun s => (s.length : ℚ)) 7 (pySplitSpace "one two three")).flatten =
      pySplitSpace "one two three" ∧
    getMultilineText (fun s => (s.length : ℚ)) "one two three" 7 =
      String.intercalate "\n"
        ((wrapChunks (fun s => (s.length : ℚ)) 7 (pySplitSpace "one two three")).map joinSp) := by
  have h := c7_get_multiline_text_greedy_wrap (fun s => (s.length : ℚ)) "one two three" 7
    (by
      intro a b
      simp only [String.length_append]
      constructor
      · exact_mod_cast Nat.le_add_right a.length b.length
      · exact_mod_cast Nat.le_add_left b.length a.length)
    (by decide)
  exact ⟨h.2.1, h.1⟩

/-! ### Legal-tiling lemmas (C6) -/

/-- `round` of an integer-valued rational is that integer. -/
theorem roundHalfEven_intCast (n : ℤ) : roundHalfEven (n : ℚ) = n := by
  rw [show roundHalfEven (n : ℚ) =
    (if (n : ℚ) - ⌊(n : ℚ)⌋ < 1/2 then ⌊(n : ℚ)⌋
     else if (n : ℚ) - ⌊(n : ℚ)⌋ > 1/2 then ⌊(n : ℚ)⌋ + 1
     else if ⌊(n : ℚ)⌋ % 2 = 0 then ⌊(n : ℚ)⌋ else ⌊(n : ℚ)⌋ + 1) from rfl]
  rw [Int.floor_intCast]
  norm_num

/-- The branch form of `roundHalfEven`. -/
theorem roundHalfEven_eq (q : ℚ) : roundHalfEven q =
    (if q - ⌊q⌋ < 1/2 then ⌊q⌋
     else if q - ⌊q⌋ > 1/2 then ⌊q⌋ + 1
     else if ⌊q⌋ % 2 = 0 then ⌊q⌋ else ⌊q⌋ + 1) := rfl

/-- `round` is a nearest integer: it is within 1/2 of its argument. -/
theorem abs_roundHalfEven_sub_le (q : ℚ) : |((roundHalfEven q : ℤ) : ℚ) - q| ≤ 1/2 := by
  rw [roundHalfEven_eq]
  have hf0 : (⌊q⌋ : ℚ) ≤ q := Int.floor_le q
  have hf1 : q < ⌊q⌋ + 1 := Int.lt_floor_add_one q
  split_ifs with h1 h2 h3 <;>
    · rw [abs_le]
      push_cast
      constructor <;> linarith

/-- `round` never decreases below the floor. -/
theorem floor_le_roundHalfEven (q : ℚ) : ⌊q⌋ ≤ roundHalfEven q := by
  rw [roundHalfEven_eq]
  split_ifs <;> omega

/-- Members of the dash-start `while` loop are exactly the multiples of the
step below the limit. -/
theorem mem_whileStarts (step : ℕ) (hstep : 0 < step) (lim : ℕ) :
    ∀ (fuel y s : ℕ), lim ≤ y + fuel * step →
      (s ∈ whileStarts step lim fuel y ↔ (∃ k, s = y + k * step) ∧ s < lim) := by
  intro fuel
  induction fuel with
  | zero =>
      intro y s hfuel
      simp only [whileStarts, List.not_mem_nil, false_iff]
      rintro ⟨⟨k, rfl⟩, hlt⟩
      simp only [Nat.zero_mul, Nat.add_zero] at hfuel
      omega
  | succ fuel ih =>
      intro y s hfuel
      rw [Nat.succ_mul] at hfuel
      rw [whileStarts]
      by_cases hy : y < lim
      · rw [if_pos hy, List.mem_cons, ih (y + step) s (by omega)]
        constructor
        · rintro (rfl | ⟨⟨k, rfl⟩, hlt⟩)
          · exact ⟨⟨0, by omega⟩, hy⟩
          · exact ⟨⟨k + 1, by ring⟩, hlt⟩
        · rintro ⟨⟨k, rfl⟩, hlt⟩
          cases k with
          | zero => left; omega
          | succ k => right; exact ⟨⟨k, by ring⟩, hlt⟩
      · rw [if_neg hy]
        simp only [List.not_mem_nil, false_iff]
        rintro ⟨⟨k, rfl⟩, hlt⟩
        omega

/-- A coordinate below the limit lies on a dash exactly when its offset in
the dash-plus-gap period is at most the dash length. -/
theorem onDash_iff (dashLen lim v : ℕ) (hd : 0 < dashLen) (hv : v < lim) :
    onDash dashLen lim v = true ↔ v % (2 * dashLen) ≤ dashLen := by
  have hfuel : lim ≤ 0 + (lim + 1) * (dashLen + dashLen) := by
    have h := Nat.le_mul_of_pos_right (lim + 1) (show 0 < dashLen + dashLen by omega)
    omega
  unfold onDash dashStarts
  rw [List.any_eq_true]
  constructor
  · rintro ⟨s, hs, hcond⟩
    rw [mem_whileStarts (dashLen + dashLen) (by omega) lim (lim + 1) 0 s hfuel] at hs
    obtain ⟨⟨k, hk⟩, hlt⟩ := hs
    simp only [decide_eq_true_eq] at hcond
    obtain ⟨hle, hub⟩ := hcond
    rw [Nat.le_min] at hub
    have e1 : 2 * dashLen * k = k * (dashLen + dashLen) := by ring
    have h1 : v = 2 * dashLen * k + (v - s) := by omega
    have hmod : v % (2 * dashLen) = v - s := by
      conv_lhs => rw [h1]
      rw [Nat.mul_add_mod]
      exact Nat.mod_eq_of_lt (show v - s < 2 * dashLen by omega)
    omega
  · intro hmod
    have hdm := Nat.div_add_mod v (2 * dashLen)
    have e2 : v / (2 * dashLen) * (2 * dashLen) = 2 * dashLen * (v / (2 * dashLen)) := by
      ring
    refine ⟨(v / (2 * dashLen)) * (2 * dashLen), ?_, ?_⟩
    · rw [mem_whileStarts (dashLen + dashLen) (by omega) lim (lim + 1) 0 _ hfuel]
      have e3 : v / (2 * dashLen) * (2 * dashLen) =
          0 + v / (2 * dashLen) * (dashLen + dashLen) := by ring
      exact ⟨⟨v / (2 * dashLen), e3⟩, by omega⟩
    · simp only [decide_eq_true_eq]
      rw [Nat.le_min]
      omega

/-- Pixel of a paste inside the pasted region. -/
theorem pasteAt_pix_in (base stamp : PImg) (px py x y : ℕ)
    (h1 : px ≤ x) (h2 : x < px + stamp.w) (h3 : py ≤ y) (h4 : y < py + stamp.h) :
    (base.pasteAt stamp px py).pix x y = stamp.pix (x - px) (y - py) := by
  unfold PImg.pasteAt
  dsimp only
  rw [if_pos ⟨h1, h2, h3, h4⟩]

/-- Pixel of a paste outside the pasted region. -/
theorem pasteAt_pix_out (base stamp : PImg) (px py x y : ℕ)
    (h : ¬(px ≤ x ∧ x < px + stamp.w ∧ py ≤ y ∧ y < py + stamp.h)) :
    (base.pasteAt stamp px py).pix x y = base.pix x y := by
  unfold PImg.pasteAt
  dsimp only
  rw [if_neg h]

/-- The vertical dashed line leaves other columns unchanged. -/
theorem vDashes_pix_ne (i : PImg) (x0 d lim x y : ℕ) (h : x ≠ x0) :
    (i.vDashes x0 d lim).pix x y = i.pix x y := by
  unfold PImg.vDashes
  dsimp only
  rw [if_neg]
  rintro ⟨h1, _⟩
  exact h h1

/-- The vertical dashed line on its column. -/
theorem vDashes_pix_eq (i : PImg) (x0 d lim y : ℕ) :
    (i.vDashes x0 d lim).pix x0 y =
      if onDash d lim y = true then Px.black else i.pix x0 y := by
  unfold PImg.vDashes
  dsimp only
  by_cases hod : onDash d lim y = true
  · rw [if_pos ⟨rfl, hod⟩, if_pos hod]
  · rw [if_neg (by rintro ⟨_, h2⟩; exact hod h2), if_neg hod]

/-- The horizontal dashed line leaves other rows unchanged. -/
theorem hDashes_pix_ne (i : PImg) (y0 d lim x y : ℕ) (h : y ≠ y0) :
    (i.hDashes y0 d lim).pix x y = i.pix x y := by
  unfold PImg.hDashes
  dsimp only
  rw [if_neg]
  rintro ⟨h1, _⟩
  exact h h1

/-- The horizontal dashed line on its row. -/
theorem hDashes_pix_eq (i : PImg) (y0 d lim x : ℕ) :
    (i.hDashes y0 d lim).pix x y0 =
      if onDash d lim x = true then Px.black else i.pix x y0 := by
  unfold PImg.hDashes
  dsimp only
  by_cases hod : onDash d lim x = true
  · rw [if_pos ⟨rfl, hod⟩, if_pos hod]
  · rw [if_neg (by rintro ⟨_, h2⟩; exact hod h2), if_neg hod]

/-- The branch form of `elPpi`. -/
theorem elPpi_eq (iw ih : ℕ) : elPpi iw ih =
    (if roundHalfEven (((iw : ℚ) / 7 + (ih : ℚ) / (17/4)) / 2) ≤ 0 then 300
     else roundHalfEven (((iw : ℚ) / 7 + (ih : ℚ) / (17/4)) / 2)) := rfl

/-- The derived PPI is positive. -/
theorem elPpi_pos (iw ih : ℕ) : 0 < elPpi iw ih := by
  rw [elPpi_eq]
  split_ifs with h
  · norm_num
  · omega

/-- The tile width in pixels is exactly `7 * ppi`. -/
theorem elTileW_intCast (ppi : ℤ) (h : 0 < ppi) : (elTileW ppi : ℤ) = 7 * ppi := by
  unfold elTileW
  rw [show ((7 : ℚ) * ppi) = ((7 * ppi : ℤ) : ℚ) by push_cast; ring, roundHalfEven_intCast]
  exact Int.toNat_of_nonneg (by positivity)

/-- The output width in pixels is exactly `14 * ppi`. -/
theorem elOutW_intCast (ppi : ℤ) (h : 0 < ppi) : (elOutW ppi : ℤ) = 14 * ppi := by
  unfold elOutW
  rw [show ((14 : ℚ) * ppi) = ((14 * ppi : ℤ) : ℚ) by push_cast; ring, roundHalfEven_intCast]
  exact Int.toNat_of_nonneg (by positivity)

/-- The tile height in pixels as an integer. -/
theorem elTileH_intCast (ppi : ℤ) (h : 0 < ppi) :
    (elTileH ppi : ℤ) = roundHalfEven ((17/4 : ℚ) * ppi) := by
  unfold elTileH
  refine Int.toNat_of_nonneg (le_trans ?_ (floor_le_roundHalfEven _))
  refine Int.floor_nonneg.mpr ?_
  have hq : (0 : ℚ) ≤ (ppi : ℚ) := by exact_mod_cast h.le
  positivity

/-- The output height in pixels as an integer. -/
theorem elOutH_intCast (ppi : ℤ) (h : 0 < ppi) :
    (elOutH ppi : ℤ) = roundHalfEven ((17/2 : ℚ) * ppi) := by
  unfold elOutH
  refine Int.toNat_of_nonneg (le_trans ?_ (floor_le_roundHalfEven _))
  refine Int.floor_nonneg.mpr ?_
  have hq : (0 : ℚ) ≤ (ppi : ℚ) := by exact_mod_cast h.le
  positivity

/-- The pasted tile has the expected tile dimensions. -/
theorem elTile_dims (resize : PImg → ℕ → ℕ → PImg)
    (hres : ∀ (i : PImg) (w h : ℕ), (resize i w h).w = w ∧ (resize i w h).h = h)
    (image : PImg) :
    (elTile resize image).w = elTileW (elPpi image.w image.h) ∧
    (elTile resize image).h = elTileH (elPpi image.w image.h) := by
  unfold elTile
  dsimp only
  split_ifs with hcond
  · exact hres image _ _
  · rw [not_ne_iff, Prod.mk.injEq] at hcond
    exact ⟨hcond.1, hcond.2⟩

/-- The canvas width is twice the tile width. -/
theorem elOutW_eq_two_tileW (ppi : ℤ) (h : 0 < ppi) : elOutW ppi = 2 * elTileW ppi := by
  have h1 := elOutW_intCast ppi h
  have h2 := elTileW_intCast ppi h
  omega

/-- Decomposition of `expanToLegal` into pastes and dashed lines. -/
theorem expanToLegal_decomp (resize : PImg → ℕ → ℕ → PImg) (image : PImg) :
    expanToLegal resize image =
      ((elPasted resize image).vDashes (elTileW (elPpi image.w image.h))
        (elDashLen (elPpi image.w image.h)) (elOutH (elPpi image.w image.h))).hDashes
        (elTileH (elPpi image.w image.h)) (elDashLen (elPpi image.w image.h))
        (elOutW (elPpi image.w image.h)) := rfl

/-- Decomposition of `elPasted` into the four pastes. -/
theorem elPasted_decomp (resize : PImg → ℕ → ℕ → PImg) (image : PImg) :
    elPasted resize image =
      (((((⟨elOutW (elPpi image.w image.h), elOutH (elPpi image.w image.h),
            fun _ _ => Px.white⟩ : PImg).pasteAt (elTile resize image) 0 0).pasteAt
          (elTile resize image) (elTileW (elPpi image.w image.h)) 0).pasteAt
        (elTile resize image).rot180 0 (elTileH (elPpi image.w image.h))).pasteAt
        (elTile resize image).rot180 (elTileW (elPpi image.w image.h))
        (elTileH (elPpi image.w image.h))) := rfl

/-- Top-left quadrant: the upright tile. -/
theorem elPasted_pix_topLeft (resize : PImg → ℕ → ℕ → PImg)
    (hres : ∀ (i : PImg) (w h : ℕ), (resize i w h).w = w ∧ (resize i w h).h = h)
    (image : PImg) (x y : ℕ)
    (hx : x < elTileW (elPpi image.w image.h))
    (hy : y < elTileH (elPpi image.w image.h)) :
    (elPasted resize image).pix x y = (elTile resize image).pix x y := by
  obtain ⟨hTw, hTh⟩ := elTile_dims resize hres image
  rw [elPasted_decomp]
  rw [pasteAt_pix_out _ _ _ _ _ _ (by rintro ⟨h1, -, -, -⟩; omega)]
  rw [pasteAt_pix_out _ _ _ _ _ _ (by rintro ⟨-, -, h3, -⟩; omega)]
  rw [pasteAt_pix_out _ _ _ _ _ _ (by rintro ⟨h1, -, -, -⟩; omega)]
  rw [pasteAt_pix_in _ _ _ _ _ _ (Nat.zero_le x) (by rw [Nat.zero_add, hTw]; omega)
    (Nat.zero_le y) (by rw [Nat.zero_add, hTh]; omega)]
  rw [Nat.sub_zero, Nat.sub_zero]

/-- Top-right quadrant: the upright tile again. -/
theorem elPasted_pix_topRight (resize : PImg → ℕ → ℕ → PImg)
    (hres : ∀ (i : PImg) (w h : ℕ), (resize i w h).w = w ∧ (resize i w h).h = h)
    (image : PImg) (x y : ℕ)
    (hx1 : elTileW (elPpi image.w image.h) ≤ x)
    (hx2 : x < 2 * elTileW (elPpi image.w image.h))
    (hy : y < elTileH (elPpi image.w image.h)) :
    (elPasted resize image).pix x y =
      (elTile resize image).pix (x - elTileW (elPpi image.w image.h)) y := by
  obtain ⟨hTw, hTh⟩ := elTile_dims resize hres image
  rw [elPasted_decomp]
  rw [pasteAt_pix_out _ _ _ _ _ _ (by rintro ⟨-, -, h3, -⟩; omega)]
  rw [pasteAt_pix_out _ _ _ _ _ _ (by rintro ⟨-, -, h3, -⟩; omega)]
  rw [pasteAt_pix_in _ _ _ _ _ _ hx1 (by rw [hTw]; omega) (Nat.zero_le y)
    (by rw [Nat.zero_add, hTh]; omega)]
  rw [Nat.sub_zero]

/-- Bottom-left quadrant: the tile rotated 180°. -/
theorem elPasted_pix_botLeft (resize : PImg → ℕ → ℕ → PImg)
    (hres : ∀ (i : PImg) (w h : ℕ), (resize i w h).w = w ∧ (resize i w h).h = h)
    (image : PImg) (x y : ℕ)
    (hx : x < elTileW (elPpi image.w image.h))
    (hy1 : elTileH (elPpi image.w image.h) ≤ y)
    (hy2 : y < 2 * elTileH (elPpi image.w image.h)) :
    (elPasted resize image).pix x y =
      (elTile resize image).pix (elTileW (elPpi image.w image.h) - 1 - x)
        (elTileH (elPpi image.w image.h) - 1 - (y - elTileH (elPpi image.w image.h))) := by
  obtain ⟨hTw, hTh⟩ := elTile_dims resize hres image
  rw [elPasted_decomp]
  rw [pasteAt_pix_out _ _ _ _ _ _ (by rintro ⟨h1, -, -, -⟩; omega)]
  rw [pasteAt_pix_in _ _ _ _ _ _ (Nat.zero_le x)
    (by show x < 0 + (elTile resize image).rot180.w; rw [Nat.zero_add]
        show x < (elTile resize image).w; rw [hTw]; omega)
    hy1
    (by show y < elTileH (elPpi image.w image.h) + (elTile resize image).rot180.h
        show y < elTileH (elPpi image.w image.h) + (elTile resize image).h
        rw [hTh]; omega)]
  show (elTile resize image).pix ((elTile resize image).w - 1 - (x - 0))
      ((elTile resize image).h - 1 - (y - elTileH (elPpi image.w image.h))) = _
  rw [Nat.sub_zero, hTw, hTh]

/-- Bottom-right quadrant: the tile rotated 180° again. -/
theorem elPasted_pix_botRight (resize : PImg → ℕ → ℕ → PImg)
    (hres : ∀ (i : PImg) (w h : ℕ), (resize i w h).w = w ∧ (resize i w h).h = h)
    (image : PImg) (x y : ℕ)
    (hx1 : elTileW (elPpi image.w image.h) ≤ x)
    (hx2 : x < 2 * elTileW (elPpi image.w image.h))
    (hy1 : elTileH (elPpi image.w image.h) ≤ y)
    (hy2 : y < 2 * elTileH (elPpi image.w image.h)) :
    (elPasted resize image).pix x y =
      (elTile resize image).pix
        (elTileW (elPpi image.w image.h) - 1 - (x - elTileW (elPpi image.w image.h)))
        (elTileH (elPpi image.w image.h) - 1 - (y - elTileH (elPpi image.w image.h))) := by
  obtain ⟨hTw, hTh⟩ := elTile_dims resize hres image
  rw [elPasted_decomp]
  rw [pasteAt_pix_in _ _ _ _ _ _ hx1
    (by show x < elTileW (elPpi image.w image.h) + (elTile resize image).rot180.w
        show x < elTileW (elPpi image.w image.h) + (elTile resize image).w
        rw [hTw]; omega)
    hy1
    (by show y < elTileH (elPpi image.w image.h) + (elTile resize image).rot180.h
        show y < elTileH (elPpi image.w image.h) + (elTile resize image).h
        rw [hTh]; omega)]
  show (elTile resize image).pix ((elTile resize image).w - 1 -
      (x - elTileW (elPpi image.w image.h)))
      ((elTile resize image).h - 1 - (y - elTileH (elPpi image.w image.h))) = _
  rw [hTw, hTh]

/-- The vertical seam column: black on dashes, the composite elsewhere. -/
theorem expanToLegal_pix_vseam (resize : PImg → ℕ → ℕ → PImg) (image : PImg) (y : ℕ)
    (hy : y < elOutH (elPpi image.w image.h))
    (hyne : y ≠ elTileH (elPpi image.w image.h)) :
    (expanToLegal resize image).pix (elTileW (elPpi image.w image.h)) y =
      (if y % (2 * elDashLen (elPpi image.w image.h)) ≤ elDashLen (elPpi image.w image.h)
       then Px.black
       else (elPasted resize image).pix (elTileW (elPpi image.w image.h)) y) := by
  have hd : 0 < elDashLen (elPpi image.w image.h) :=
    lt_of_lt_of_le (by norm_num) (le_max_left 6 _)
  rw [expanToLegal_decomp, hDashes_pix_ne _ _ _ _ _ _ hyne, vDashes_pix_eq]
  by_cases hmod : y % (2 * elDashLen (elPpi image.w image.h)) ≤
      elDashLen (elPpi image.w image.h)
  · rw [if_pos ((onDash_iff _ _ _ hd hy).mpr hmod), if_pos hmod]
  · rw [if_neg (fun hc => hmod ((onDash_iff _ _ _ hd hy).mp hc)), if_neg hmod]

/-- The horizontal seam row: black on dashes, the composite elsewhere. -/
theorem expanToLegal_pix_hseam (resize : PImg → ℕ → ℕ → PImg) (image : PImg) (x : ℕ)
    (hx : x < elOutW (elPpi image.w image.h))
    (hxne : x ≠ elTileW (elPpi image.w image.h)) :
    (expanToLegal resize image).pix x (elTileH (elPpi image.w image.h)) =
      (if x % (2 * elDashLen (elPpi image.w image.h)) ≤ elDashLen (elPpi image.w image.h)
       then Px.black
       else (elPasted resize image).pix x (elTileH (elPpi image.w image.h))) := by
  have hd : 0 < elDashLen (elPpi image.w image.h) :=
    lt_of_lt_of_le (by norm_num) (le_max_left 6 _)
  rw [expanToLegal_decomp, hDashes_pix_eq, vDashes_pix_ne _ _ _ _ _ _ hxne]
  by_cases hmod : x % (2 * elDashLen (elPpi image.w image.h)) ≤
      elDashLen (elPpi image.w image.h)
  · rw [if_pos ((onDash_iff _ _ _ hd hx).mpr hmod), if_pos hmod]
  · rw [if_neg (fun hc => hmod ((onDash_iff _ _ _ hd hx).mp hc)), if_neg hmod]

/-- Off-seam pixels of the final canvas agree with the pasted composite. -/
theorem expanToLegal_pix_offSeam (resize : PImg → ℕ → ℕ → PImg) (image : PImg) (x y : ℕ)
    (hxne : x ≠ elTileW (elPpi image.w image.h))
    (hyne : y ≠ elTileH (elPpi image.w image.h)) :
    (expanToLegal resize image).pix x y = (elPasted resize image).pix x y := by
  rw [expanToLegal_decomp, hDashes_pix_ne _ _ _ _ _ _ hyne,
    vDashes_pix_ne _ _ _ _ _ _ hxne]

/-- **C6**.  `expan_to_legal` derives the PPI as the nearest integer to the
average of width/7.0 and height/4.25 (round half to even, with a 300 fallback
when that value is not positive), resizes the input to the expected
7in×4.25in tile pixels exactly when its dimensions differ, and returns a
14in×8.5in canvas at that PPI (width exactly `14·ppi` = twice the tile width;
height within one pixel of `8.5·ppi`): the top row holds the tile twice
unrotated, the bottom row twice rotated 180°, and along the two seams dashed
cut guides with dash and gap length `max(6, round(0.03·ppi))` are drawn —
black within a dash period, the underlying composite showing through in the
gaps. -/
theorem c6_expan_to_legal (resize : PImg → ℕ → ℕ → PImg)
    (hres : ∀ (i : PImg) (w h : ℕ), (resize i w h).w = w ∧ (resize i w h).h = h)
    (image : PImg) :
    0 < elPpi image.w image.h ∧
    (roundHalfEven (((image.w : ℚ) / 7 + (image.h : ℚ) / (17/4)) / 2) ≤ 0 →
      elPpi image.w image.h = 300) ∧
    (0 < roundHalfEven (((image.w : ℚ) / 7 + (image.h : ℚ) / (17/4)) / 2) →
      |((elPpi image.w image.h : ℤ) : ℚ) -
        ((image.w : ℚ) / 7 + (image.h : ℚ) / (17/4)) / 2| ≤ 1/2) ∧
    (image.w = elTileW (elPpi image.w image.h) ∧
      image.h = elTileH (elPpi image.w image.h) → elTile resize image = image) ∧
    ((elTileW (elPpi image.w image.h) : ℤ) = 7 * elPpi image.w image.h) ∧
    ((expanToLegal resize image).w : ℤ) = 14 * elPpi image.w image.h ∧
    (expanToLegal resize image).w = 2 * elTileW (elPpi image.w image.h) ∧
    |2 * ((expanToLegal resize image).h : ℤ) - 17 * elPpi image.w image.h| ≤ 1 ∧
    elDashLen (elPpi image.w image.h) =
      max 6 (roundHalfEven ((3/100 : ℚ) * (elPpi image.w image.h : ℤ))).toNat ∧
    (∀ x y, x < elTileW (elPpi image.w image.h) → y < elTileH (elPpi image.w image.h) →
      (expanToLegal resize image).pix x y = (elTile resize image).pix x y) ∧
    (∀ x y, elTileW (elPpi image.w image.h) < x → x < (expanToLegal resize image).w →
      y < elTileH (elPpi image.w image.h) →
      (expanToLegal resize image).pix x y =
        (elTile resize image).pix (x - elTileW (elPpi image.w image.h)) y) ∧
    (∀ x y, x < elTileW (elPpi image.w image.h) → elTileH (elPpi image.w image.h) < y →
      y < 2 * elTileH (elPpi image.w image.h) →
      (expanToLegal resize image).pix x y =
        ((elTile resize image).rot180).pix x (y - elTileH (elPpi image.w image.h))) ∧
    (∀ x y, elTileW (elPpi image.w image.h) < x → x < (expanToLegal resize image).w →
      elTileH (elPpi image.w image.h) < y → y < 2 * elTileH (elPpi image.w image.h) →
      (expanToLegal resize image).pix x y =
        ((elTile resize image).rot180).pix (x - elTileW (elPpi image.w image.h))
          (y - elTileH (elPpi image.w image.h))) ∧
    (∀ y, y < (expanToLegal resize image).h → y ≠ elTileH (elPpi image.w image.h) →
      (expanToLegal resize image).pix (elTileW (elPpi image.w image.h)) y =
        (if y % (2 * elDashLen (elPpi image.w image.h)) ≤ elDashLen (elPpi image.w image.h)
         then Px.black
         else (elPasted resize image).pix (elTileW (elPpi image.w image.h)) y)) ∧
    (∀ x, x < (expanToLegal resize image).w → x ≠ elTileW (elPpi image.w image.h) →
      (expanToLegal resize image).pix x (elTileH (elPpi image.w image.h)) =
        (if x % (2 * elDashLen (elPpi image.w image.h)) ≤ elDashLen (elPpi image.w image.h)
         then Px.black
         else (elPasted resize image).pix x (elTileH (elPpi image.w image.h)))) := by
  have hpos : 0 < elPpi image.w image.h := elPpi_pos image.w image.h
  obtain ⟨hTw, hTh⟩ := elTile_dims resize hres image
  have hEw : (expanToLegal resize image).w = elOutW (elPpi image.w image.h) := rfl
  have hEh : (expanToLegal resize image).h = elOutH (elPpi image.w image.h) := rfl
  have hout2 : (expanToLegal resize image).w = 2 * elTileW (elPpi image.w image.h) := by
    rw [hEw, elOutW_eq_two_tileW _ hpos]
  refine ⟨hpos, ?_, ?_, ?_, elTileW_intCast _ hpos, ?_, hout2, ?_, rfl, ?_, ?_, ?_, ?_, ?_, ?_⟩
  · intro h
    rw [elPpi_eq, if_pos h]
  · intro h
    rw [elPpi_eq, if_neg (by omega)]
    exact abs_roundHalfEven_sub_le _
  · intro ⟨h1, h2⟩
    unfold elTile
    dsimp only
    rw [if_neg (by rw [not_ne_iff, Prod.mk.injEq]; exact ⟨h1, h2⟩)]
  · rw [hEw, elOutW_intCast _ hpos]
  · have habs := abs_roundHalfEven_sub_le ((17/2 : ℚ) * (elPpi image.w image.h : ℤ))
    have hcast : ((expanToLegal resize image).h : ℤ) =
        roundHalfEven ((17/2 : ℚ) * (elPpi image.w image.h : ℤ)) := by
      rw [hEh]
      exact elOutH_intCast _ hpos
    rw [hcast]
    have hq : |2 * ((roundHalfEven ((17/2 : ℚ) * (elPpi image.w image.h : ℤ)) : ℤ) : ℚ) -
        17 * ((elPpi image.w image.h : ℤ) : ℚ)| ≤ 1 := by
      have he : 2 * ((roundHalfEven ((17/2 : ℚ) * (elPpi image.w image.h : ℤ)) : ℤ) : ℚ) -
          17 * ((elPpi image.w image.h : ℤ) : ℚ) =
          2 * (((roundHalfEven ((17/2 : ℚ) * (elPpi image.w image.h : ℤ)) : ℤ) : ℚ) -
            (17/2 : ℚ) * (elPpi image.w image.h : ℤ)) := by ring
      rw [he, abs_mul, abs_two]
      linarith
    have he2 : (2 * (roundHalfEven ((17/2 : ℚ) * (elPpi image.w image.h : ℤ))) -
        17 * elPpi image.w image.h : ℤ) = (2 * (roundHalfEven ((17/2 : ℚ) *
          (elPpi image.w image.h : ℤ))) - 17 * elPpi image.w image.h : ℤ) := rfl
    rw [show (1 : ℤ) = ((1 : ℤ)) from rfl]
    rw [← @Int.cast_le ℚ]
    push_cast
    push_cast at hq
    convert hq using 2
  · intro x y hx hy
    rw [expanToLegal_pix_offSeam resize image x y (by omega) (by omega)]
    exact elPasted_pix_topLeft resize hres image x y hx hy
  · intro x y hx1 hx2 hy
    rw [hout2] at hx2
    rw [expanToLegal_pix_offSeam resize image x y (by omega) (by omega)]
    exact elPasted_pix_topRight resize hres image x y (by omega) hx2 hy
  · intro x y hx hy1 hy2
    rw [expanToLegal_pix_offSeam resize image x y (by omega) (by omega)]
    rw [elPasted_pix_botLeft resize hres image x y hx (by omega) hy2]
    show _ = (elTile resize image).pix ((elTile resize image).w - 1 - x)
      ((elTile resize image).h - 1 - (y - elTileH (elPpi image.w image.h)))
    rw [hTw, hTh]
  · intro x y hx1 hx2 hy1 hy2
    rw [hout2] at hx2
    rw [expanToLegal_pix_offSeam resize image x y (by omega) (by omega)]
    rw [elPasted_pix_botRight resize hres image x y (by omega) hx2 (by omega) hy2]
    show _ = (elTile resize image).pix ((elTile resize image).w - 1 -
      (x - elTileW (elPpi image.w image.h)))
      ((elTile resize image).h - 1 - (y - elTileH (elPpi image.w image.h)))
    rw [hTw, hTh]
  · intro y hy hyne
    rw [hEh] at hy
    exact expanToLegal_pix_vseam resize image y hy hyne
  · intro x hx hxne
    rw [hEw] at hx
    exact expanToLegal_pix_hseam resize image x hx hxne

/-- A resize that returns an image of exactly the requested size (the
property PIL's `Image.resize` guarantees). -/
def resizeExact : PImg → ℕ → ℕ → PImg := fun i w h => ⟨w, h, fun x y => i.pix x y⟩

/-- A 14×8 test image, whose derived PPI is 2. -/
def testImg : PImg := ⟨14, 8, fun x y => Px.other (x + 100 * y)⟩

/-- Witness for C6: at a concrete 14×8 source image (PPI = 2, tile 14×8,
canvas 28 wide), the canvas repeats the tile upright top-left and top-right,
rotated 180° bottom-left, and the vertical seam starts with a black dash. -/
theorem c6_expan_to_legal_witness :
    (expanToLegal resizeExact testImg).w = 28 ∧
    (expanToLegal resizeExact testImg).pix 3 2 = Px.other 203 ∧
    (expanToLegal resizeExact testImg).pix 17 2 = Px.other 203 ∧
    (expanToLegal resizeExact testImg).pix 3 10 = Px.other 510 ∧
    (expanToLegal resizeExact testImg).pix 14 0 = Px.black := by
  have hresC : ∀ (i : PImg) (w h : ℕ),
      (resizeExact i w h).w = w ∧ (resizeExact i w h).h = h := fun _ _ _ => ⟨rfl, rfl⟩
  have h := c6_expan_to_legal resizeExact hresC testImg
  have hppi : elPpi testImg.w testImg.h = 2 := by
    rw [show testImg.w = 14 from rfl, show testImg.h = 8 from rfl, elPpi_eq]
    norm_num [roundHalfEven_eq]
  have htw : elTileW (elPpi testImg.w testImg.h) = 14 := by
    rw [hppi]
    unfold elTileW
    rw [show ((7 : ℚ) * ((2 : ℤ) : ℚ)) = ((14 : ℤ) : ℚ) by norm_num, roundHalfEven_intCast]
    rfl
  have hth : elTileH (elPpi testImg.w testImg.h) = 8 := by
    rw [hppi]
    unfold elTileH
    rw [show roundHalfEven ((17/4 : ℚ) * ((2 : ℤ) : ℚ)) = 8 from by
      rw [roundHalfEven_eq]
      norm_num]
    rfl
  have hEh : (expanToLegal resizeExact testImg).h = 17 := by
    rw [show (expanToLegal resizeExact testImg).h = elOutH (elPpi testImg.w testImg.h)
      from rfl, hppi]
    unfold elOutH
    rw [show ((17/2 : ℚ) * ((2 : ℤ) : ℚ)) = ((17 : ℤ) : ℚ) by norm_num, roundHalfEven_intCast]
    rfl
  have hd6 : elDashLen (elPpi testImg.w testImg.h) = 6 := by
    rw [hppi]
    unfold elDashLen
    rw [show roundHalfEven ((3/100 : ℚ) * ((2 : ℤ) : ℚ)) = 0 from by
      rw [roundHalfEven_eq]
      norm_num]
    rfl
  have hT : elTile resizeExact testImg = testImg :=
    h.2.2.2.1 ⟨by rw [htw]; rfl, by rw [hth]; rfl⟩
  have hEw : (expanToLegal resizeExact testImg).w = 28 := by
    rw [h.2.2.2.2.2.2.1, htw]
  refine ⟨hEw, ?_, ?_, ?_, ?_⟩
  · rw [h.2.2.2.2.2.2.2.2.2.1 3 2 (by rw [htw]; norm_num) (by rw [hth]; norm_num), hT]
    rfl
  · rw [h.2.2.2.2.2.2.2.2.2.2.1 17 2 (by rw [htw]; norm_num) (by rw [hEw]; norm_num)
      (by rw [hth]; norm_num), hT, htw]
    rfl
  · rw [h.2.2.2.2.2.2.2.2.2.2.2.1 3 10 (by rw [htw]; norm_num) (by rw [hth]; norm_num)
      (by rw [hth]; norm_num), hT, hth]
    rfl
  · rw [show (14 : ℕ) = elTileW (elPpi testImg.w testImg.h) from htw.symm]
    rw [h.2.2.2.2.2.2.2.2.2.2.2.2.2.1 0 (by rw [hEh]; norm_num) (by rw [hth]; norm_num),
      hd6]
    norm_num

/-- Witness for C2: the 2025 calendar with no events provider. -/
theorem c2_wall_25_pages_desk_generator_crash_witness :
    (wallDrawCalendar (Calendar.new 2025 none)).length = 25 ∧
    deskDrawCalendar (Calendar.new 2025 none) =
      ([.genObj [.pil .frontTag]], some (.typeError "Invalid type <class 'generator'>")) := by
  exact ⟨(c2_wall_25_pages_desk_generator_crash 2025 none).1,
    (c2_wall_25_pages_desk_generator_crash 2025 none).2.2.1⟩

/-- Witness for C9: a three-page stream whose middle page renders `None`
produces two files and one indexed error, and processing reaches the third
page in both exporters. -/
theorem c9_export_continues_after_none_page_witness :
    wallExport false [some PageTag.frontTag, none, some (PageTag.artTag 1)] =
      ⟨["Page_0.png", "Page_1.png"], ["Page 1 returned None from renderer"], false⟩ ∧
    deskExport [some PageTag.frontTag, none, some (PageTag.artTag 1)] =
      ⟨["Page_0.png", "Page_2.png"], ["Page 1 returned None from renderer"], false⟩ := by
  have h := c9_export_continues_after_none_page
    [some PageTag.frontTag, none, some (PageTag.artTag 1)]
  refine ⟨?_, ?_⟩
  · rw [h.1]
    rfl
  · rw [h.2.1]
    rfl

end CalendarMaker
